import Mathlib

/-!
Verification of the SonicDeck soundboard frontend (Tauri + React + TypeScript).

The development shallowly embeds the playback-tracking logic of the
`Dashboard` component, the `Settings` volume-boost handlers, the
`WaveformQueue` request serialiser and the hotkey display round-trip
(`formatHotkeyForDisplay` / `parseDisplayHotkey`), and proves the stated
properties about them.  JavaScript `Map`s are embedded as association
lists in insertion order, `Set`s as insertion-ordered lists, numbers as
rationals, and the asynchronous backend (`invoke`) as explicit
success/failure parameters.
-/

set_option maxHeartbeats 1000000
set_option linter.unusedVariables false

namespace SonicDeck

/-- Sound record, from `types.ts` (src/unnamed/part_000). -/
structure Sound where
  id : String
  name : String
  file_path : String
  category_id : String
  icon : Option String
  volume : Option ℚ
  is_favorite : Bool
  trim_start_ms : Option ℚ
  trim_end_ms : Option ℚ
deriving DecidableEq

/-- Active waveform state for the header display (Dashboard, lines 22-30). -/
structure ActiveWaveform where
  soundId : String
  soundName : String
  filePath : String
  currentTimeMs : ℚ
  durationMs : ℚ
  trimStartMs : Option ℚ
  trimEndMs : Option ℚ
deriving DecidableEq

/-! JavaScript `Map<string,string>` embedded as an association list in
insertion order; `Map.get`, `Map.set` (replace in place), `Map.delete`. -/

/-- `Map.get`: value of the entry whose key is `k`. -/
def mapGet (m : List (String × String)) (k : String) : Option String :=
  match m with
  | [] => none
  | (k', v) :: rest => if k' = k then some v else mapGet rest k

/-- `Map.set`: replace the value in place if the key is present, else append. -/
def mapSet (m : List (String × String)) (k v : String) : List (String × String) :=
  match m with
  | [] => [(k, v)]
  | (k', v') :: rest =>
      if k' = k then (k, v) :: rest else (k', v') :: mapSet rest k v

/-- `Map.delete`: remove the entry with key `k`. -/
def mapDelete (m : List (String × String)) (k : String) : List (String × String) :=
  match m with
  | [] => []
  | (k', v') :: rest =>
      if k' = k then mapDelete rest k else (k', v') :: mapDelete rest k

/-- `Set.add`: append if absent (JS `Set` keeps insertion order). -/
def setAdd (s : List String) (x : String) : List String :=
  if x ∈ s then s else s ++ [x]

/-- `Set.delete`: remove the element. -/
def setDelete (s : List String) (x : String) : List String :=
  match s with
  | [] => []
  | y :: rest => if y = x then setDelete rest x else y :: setDelete rest x

/-- Playback tracking state of the `Dashboard` component:
`playingSoundsRef` (sound_id -> playback_id, line 327), the
`playingSoundIds` set (line 46), the active waveform (line 55) and the
waveform exit-animation flag (line 58). -/
structure DashboardState where
  playingSounds : List (String × String)
  playingSoundIds : List String
  activeWaveform : Option ActiveWaveform
  isWaveformExiting : Bool
deriving DecidableEq

/-- Payload of the `play_dual_output` invocation (Dashboard, lines 389-396). -/
structure PlayPayload where
  filePath : String
  deviceId1 : String
  deviceId2 : String
  volume : ℚ
  trimStartMs : Option ℚ
  trimEndMs : Option ℚ
deriving DecidableEq

/-- Backend commands issued by the Dashboard handlers, in issue order.
`wait` records the bounded (100 ms) teardown delay of the restart path. -/
inductive Cmd where
  | stop (playbackId : String)
  | wait (ms : ℕ)
  | play (payload : PlayPayload)
  | stopAll
deriving DecidableEq

/-- Payload built for `play_dual_output`: file path, the two device ids,
the sound's own volume (falling back to the dashboard volume), and the
trim window (Dashboard, lines 387-396).  The sound id is not part of it. -/
def mkPlayPayload (sound : Sound) (device1 device2 : String) (volume : ℚ) :
    PlayPayload :=
  { filePath := sound.file_path
    deviceId1 := device1
    deviceId2 := device2
    volume := sound.volume.getD volume
    trimStartMs := sound.trim_start_ms
    trimEndMs := sound.trim_end_ms }

/-- String-valued arguments of a `play_dual_output` payload. -/
def payloadStrings (p : PlayPayload) : List String :=
  [p.filePath, p.deviceId1, p.deviceId2]

/-- Restart branch of `playSound` (lines 354-378): the stop command for the
prior playback id has been issued; on success the tracking entries are
removed (and the 100 ms teardown wait runs), on failure the `catch` only
logs and the tracking is left as-is. -/
def restartCleanup (σ : DashboardState) (soundId : String) (stopOk : Bool) :
    DashboardState :=
  if stopOk then
    { σ with
      playingSounds := mapDelete σ.playingSounds soundId
      playingSoundIds := setDelete σ.playingSoundIds soundId }
  else σ

/-- Waveform chosen by `setActiveWaveform` on a successful play
(lines 407-442).  All three source branches (no previous waveform,
previous waveform's sound no longer playing, "always switch to the newest
sound") produce the new sound's record. -/
def waveformAfterPlay (σ : DashboardState) (sound : Sound) :
    Option ActiveWaveform :=
  match σ.activeWaveform with
  | none =>
      some { soundId := sound.id, soundName := sound.name
             filePath := sound.file_path, currentTimeMs := 0, durationMs := 0
             trimStartMs := sound.trim_start_ms, trimEndMs := sound.trim_end_ms }
  | some prev =>
      if mapGet σ.playingSounds prev.soundId = none then
        some { soundId := sound.id, soundName := sound.name
               filePath := sound.file_path, currentTimeMs := 0, durationMs := 0
               trimStartMs := sound.trim_start_ms, trimEndMs := sound.trim_end_ms }
      else
        some { soundId := sound.id, soundName := sound.name
               filePath := sound.file_path, currentTimeMs := 0, durationMs := 0
               trimStartMs := sound.trim_start_ms, trimEndMs := sound.trim_end_ms }

/-- Start-playback block of `playSound` (lines 383-452): add the sound id to
the playing set, invoke `play_dual_output`; on success record the returned
playback id and set the active waveform, on rejection remove the sound
from both tracking structures. -/
def startAttempt (σ : DashboardState) (sound : Sound) (device1 device2 : String)
    (volume : ℚ) (playResult : Except String String) : DashboardState :=
  let σa := { σ with playingSoundIds := setAdd σ.playingSoundIds sound.id }
  match playResult with
  | .ok playbackId =>
      let σb := { σa with playingSounds := mapSet σa.playingSounds sound.id playbackId }
      { σb with activeWaveform := waveformAfterPlay σb sound }
  | .error _ =>
      { σa with
        playingSounds := mapDelete σa.playingSounds sound.id
        playingSoundIds := setDelete σa.playingSoundIds sound.id }

/-- `playSound` (Dashboard, lines 329-455), returning the final state, the
backend command trace, and the successive tracking-state snapshots (initial
state and the state after every mutation of the tracking structures).
`stopOk` tells whether the `stop_playback` invocation resolved and
`playResult` is the outcome of the `play_dual_output` invocation. -/
def playSoundFull (σ : DashboardState) (sound : Sound) (device1 device2 : String)
    (volume : ℚ) (stopOk : Bool) (playResult : Except String String) :
    DashboardState × List Cmd × List DashboardState :=
  if device1 = "" ∨ device2 = "" then (σ, [], [σ])
  else
    match mapGet σ.playingSounds sound.id with
    | some currentPlaybackId =>
        let σ1 := restartCleanup σ sound.id stopOk
        let σ2 := startAttempt σ1 sound device1 device2 volume playResult
        (σ2,
         [Cmd.stop currentPlaybackId] ++ (if stopOk then [Cmd.wait 100] else [])
           ++ [Cmd.play (mkPlayPayload sound device1 device2 volume)],
         [σ, σ1,
          { σ1 with playingSoundIds := setAdd σ1.playingSoundIds sound.id }, σ2])
    | none =>
        let σ2 := startAttempt σ sound device1 device2 volume playResult
        (σ2, [Cmd.play (mkPlayPayload sound device1 device2 volume)],
         [σ, { σ with playingSoundIds := setAdd σ.playingSoundIds sound.id }, σ2])

/-- Final state of `playSound`. -/
def playSoundState (σ : DashboardState) (sound : Sound) (device1 device2 : String)
    (volume : ℚ) (stopOk : Bool) (playResult : Except String String) :
    DashboardState :=
  (playSoundFull σ sound device1 device2 volume stopOk playResult).1

/-- Backend command trace of `playSound`. -/
def playSoundTrace (σ : DashboardState) (sound : Sound) (device1 device2 : String)
    (volume : ℚ) (stopOk : Bool) (playResult : Except String String) :
    List Cmd :=
  (playSoundFull σ sound device1 device2 volume stopOk playResult).2.1

/-- Tracking-state snapshots taken during `playSound`. -/
def playSoundSnapshots (σ : DashboardState) (sound : Sound)
    (device1 device2 : String) (volume : ℚ) (stopOk : Bool)
    (playResult : Except String String) : List DashboardState :=
  (playSoundFull σ sound device1 device2 volume stopOk playResult).2.2

/-- Reverse lookup used by the completion and progress listeners: first
sound id whose tracked playback id is `p` (iteration over `entries()` with
early exit, lines 130-135 and 200-214). -/
def lookupSoundByPid (m : List (String × String)) (p : String) : Option String :=
  match m with
  | [] => none
  | (sid, pid) :: rest => if pid = p then some sid else lookupSoundByPid rest p

/-- Waveform record shown when the completion handler switches to another
still-playing sound (lines 170-180). -/
def waveformForSound (s : Sound) : ActiveWaveform :=
  { soundId := s.id, soundName := s.name, filePath := s.file_path
    currentTimeMs := 0, durationMs := 0
    trimStartMs := s.trim_start_ms, trimEndMs := s.trim_end_ms }

/-- `playback-complete` listener (Dashboard, lines 123-191).  If the
playback id is not tracked the handler returns early; otherwise it removes
the sound from both tracking structures and updates the active waveform:
when the completed sound was displayed it switches to the newest remaining
playing sound found in the library, or clears the waveform with the exit
animation. -/
def completeHandler (library : List Sound) (σ : DashboardState)
    (completedPlaybackId : String) : DashboardState :=
  match lookupSoundByPid σ.playingSounds completedPlaybackId with
  | none => σ
  | some soundId =>
      match σ.activeWaveform with
      | some prev =>
          if prev.soundId = soundId then
            match (((mapDelete σ.playingSounds soundId).map Prod.fst).filter
                (fun id => id ≠ soundId)).getLast? with
            | some nextSoundId =>
                match library.find? (fun s => s.id = nextSoundId) with
                | some nextSound =>
                    { playingSounds := mapDelete σ.playingSounds soundId
                      playingSoundIds := setDelete σ.playingSoundIds soundId
                      activeWaveform := some (waveformForSound nextSound)
                      isWaveformExiting := σ.isWaveformExiting }
                | none =>
                    { playingSounds := mapDelete σ.playingSounds soundId
                      playingSoundIds := setDelete σ.playingSoundIds soundId
                      activeWaveform := none
                      isWaveformExiting := true }
            | none =>
                { playingSounds := mapDelete σ.playingSounds soundId
                  playingSoundIds := setDelete σ.playingSoundIds soundId
                  activeWaveform := none
                  isWaveformExiting := true }
          else
            { σ with
              playingSounds := mapDelete σ.playingSounds soundId
              playingSoundIds := setDelete σ.playingSoundIds soundId }
      | none =>
          { σ with
            playingSounds := mapDelete σ.playingSounds soundId
            playingSoundIds := setDelete σ.playingSoundIds soundId }

/-- `playback-progress` listener (Dashboard, lines 194-216): find the sound
whose tracked playback id matches and, when it is the displayed one, update
the waveform's elapsed and total times; otherwise nothing changes. -/
def progressHandler (σ : DashboardState) (playbackId : String)
    (elapsedMs totalMs : ℚ) : DashboardState :=
  match lookupSoundByPid σ.playingSounds playbackId with
  | none => σ
  | some soundId =>
      match σ.activeWaveform with
      | some prev =>
          if prev.soundId = soundId then
            let prev' := { prev with currentTimeMs := elapsedMs, durationMs := totalMs }
            { σ with activeWaveform := some prev' }
          else σ
      | none => σ

/-- `stopAllAudio` (Dashboard, lines 457-474): on a resolved
`stop_all_audio` invocation both tracking structures are cleared and the
waveform exit animation starts (the delayed clearing of the waveform after
300 ms is a later timer event); on rejection only a toast is shown. -/
def stopAllAudio (σ : DashboardState) (ok : Bool) : DashboardState × List Cmd :=
  (if ok then
     { σ with playingSounds := [], playingSoundIds := [], isWaveformExiting := true }
   else σ,
   [Cmd.stopAll])

/-- Number of tracked entries for a given sound id. -/
def keyCount (m : List (String × String)) (k : String) : ℕ :=
  (m.filter (fun e => e.1 = k)).length

/-- Tracking invariant of the Dashboard: the sound-id keys of
`playingSoundsRef` are distinct (it embeds a JS `Map`) and every member of
the `playingSoundIds` set has a tracked playback id. -/
def TrackInv (σ : DashboardState) : Prop :=
  (σ.playingSounds.map Prod.fst).Nodup ∧
    ∀ x ∈ σ.playingSoundIds, (mapGet σ.playingSounds x).isSome

instance (σ : DashboardState) : Decidable (TrackInv σ) := by
  unfold TrackInv; infer_instance

/-- Sample tracked state used by the witnesses: one sound playing. -/
def sampleState : DashboardState :=
  { playingSounds := [("sound-a", "pb-1")]
    playingSoundIds := ["sound-a"]
    activeWaveform := none
    isWaveformExiting := false }

/-- Sample sound record used by the witnesses. -/
def sampleSound : Sound :=
  { id := "sound-b", name := "Airhorn", file_path := "C:/sounds/airhorn.mp3"
    category_id := "cat-1", icon := none, volume := some (7/10)
    is_favorite := false, trim_start_ms := none, trim_end_ms := some 1500 }

/-- Sound record whose id is already playing in `sampleState`. -/
def sampleSoundA : Sound :=
  { id := "sound-a", name := "Drum", file_path := "C:/sounds/drum.wav"
    category_id := "cat-1", icon := none, volume := none
    is_favorite := true, trim_start_ms := some 100, trim_end_ms := none }

/-! Event channels of the Dashboard listener effect (part_001, lines 114-274). -/

/-- Tags identifying the handlers the Dashboard registers. -/
inductive HandlerTag where
  | decodeComplete
  | decodeError
  | playbackComplete
  | playbackProgress
  | dragDrop
  | dragHover
  | dragCancelled
deriving DecidableEq

/-- Event channels the Dashboard subscribes to, paired with the handler
registered under each (source lines 115, 119, 123, 194, 219, 264, 269). -/
def dashboardListeners : List (String × HandlerTag) :=
  [("audio-decode-complete", HandlerTag.decodeComplete),
   ("audio-decode-error", HandlerTag.decodeError),
   ("playback-complete", HandlerTag.playbackComplete),
   ("playback-progress", HandlerTag.playbackProgress),
   ("tauri://drag-drop", HandlerTag.dragDrop),
   ("tauri://drag", HandlerTag.dragHover),
   ("tauri://drag-cancelled", HandlerTag.dragCancelled)]

/-- Channel whose handler surfaces decode errors as a toast (line 119). -/
def decodeErrorChannel : String := "audio-decode-error"

/-- Channel of the completion listener (line 123). -/
def playbackCompleteChannel : String := "playback-complete"

/-- Channel of the progress listener (line 194). -/
def playbackProgressChannel : String := "playback-progress"

/-! Settings component: global volume boost handlers (part_001, lines
1221-1283) over the `AppSettings` record (part_000, lines 15-24). -/

/-- Application settings record, from `types.ts`. -/
structure AppSettings where
  monitor_device_id : Option String
  broadcast_device_id : Option String
  default_volume : ℚ
  volume_multiplier : ℚ
  last_file_path : Option String
  minimize_to_tray : Bool
  start_minimized : Bool
  autostart_enabled : Bool
deriving DecidableEq

/-- Boost checkbox handler (lines 1226-1233): writes 2.0 when checked,
1.0 when unchecked. -/
def boostToggleHandler (s : AppSettings) (checked : Bool) : AppSettings :=
  { s with volume_multiplier := if checked then 2 else 1 }

/-- Boost slider handler (lines 1252-1268): writes the slider's value; the
range input's min/max attributes confine the value to [1.1, 3.0]. -/
def boostSliderHandler (s : AppSettings) (value : ℚ) : AppSettings :=
  { s with volume_multiplier := value }

/-- One user interaction with the Global Volume Boost controls. -/
inductive BoostAction where
  | toggle (checked : Bool)
  | slider (value : ℚ)
deriving DecidableEq

/-- Dispatch of a boost interaction to its handler. -/
def applyBoostAction (s : AppSettings) : BoostAction → AppSettings
  | BoostAction.toggle c => boostToggleHandler s c
  | BoostAction.slider v => boostSliderHandler s v

/-- A slider interaction carries a value the range input allows. -/
def ValidBoostAction : BoostAction → Prop
  | BoostAction.toggle _ => True
  | BoostAction.slider v => 11/10 ≤ v ∧ v ≤ 3

instance : DecidablePred ValidBoostAction := by
  intro a
  cases a <;> unfold ValidBoostAction <;> infer_instance

/-! Gain calculator. -/

/-- Modelled from the spec: the gain calculator `compute_gain` (spec
section 4.5) is implemented in the Rust audio backend, which is not among
the sources here.  Following the spec's words: the slider is mapped
through a fourth-power perceptual curve scaled by the fixed 0.2 safety
attenuation, multiplied by the global multiplier, the
loudness-normalization gain and the per-sound volume, and hard-clamped to
the clipping-safe ceiling.  The loudness gain (which the spec already
clamps to [0.1, 4.0]) enters as an opaque factor because
`10 ^ ((target − v) / 20)` is not rational. -/
def computeGain (slider perSoundVolume globalMultiplier loudnessGain ceiling : ℚ) : ℚ :=
  min (slider ^ 4 * (1/5) * globalMultiplier * loudnessGain * perSoundVolume) ceiling

/-! Waveform request queue (`src/src/utils/waveformQueue.ts`), embedded as
an event-loop state machine: `add` events come from callers, a `ret` event
is the settling of the awaited `get_waveform` invocation, and a `tick`
event is the expiry of the 20 ms inter-request delay.  `isProcessing` is
`true` exactly when the mode is not `idle`. -/

/-- A queued waveform request (`QueueItem` without its promise callbacks;
settling is recorded in the machine state instead). -/
structure QItem where
  filePath : String
  numPeaks : ℕ
deriving DecidableEq

/-- Response record of the `get_waveform` command (`WaveformData`). -/
structure WaveformData where
  peaks : List ℚ
  duration_ms : ℚ
deriving DecidableEq

/-- Payload of a `get_waveform` invocation (waveformQueue.ts, lines 37-40). -/
structure GetWaveformPayload where
  filePath : String
  numPeaks : ℕ
deriving DecidableEq

/-- Payload built from a queue item for its backend call. -/
def mkWaveformPayload (i : QItem) : GetWaveformPayload :=
  { filePath := i.filePath, numPeaks := i.numPeaks }

/-- Processing mode of the queue loop. -/
inductive QMode where
  | idle
  | calling (item : QItem)
  | delaying
deriving DecidableEq

/-- State of the waveform queue machine. -/
structure QState where
  queue : List QItem
  mode : QMode
  settled : List (QItem × Except String WaveformData)

/-- External events driving the queue. -/
inductive QEvent where
  | add (item : QItem)
  | ret
  | tick
deriving DecidableEq

/-- Observable backend-call actions emitted by a step. -/
inductive BLabel where
  | callStart (payload : GetWaveformPayload)
  | callEnd
deriving DecidableEq

/-- One event-loop step of the `WaveformQueue`.  `add` pushes the item
and calls `process()`, which starts the loop only when `isProcessing` is
false (mode `idle`): it shifts the first item and issues its call.  `ret`
settles the in-flight item with the backend's verdict, then either waits
the 20 ms delay (queue non-empty) or leaves the loop resetting
`isProcessing`.  `tick` re-checks the loop condition and shifts the next
item.  `ret`/`tick` in other modes do not occur. -/
def qstep (backend : GetWaveformPayload → Except String WaveformData)
    (σ : QState) : QEvent → Option (QState × List BLabel)
  | QEvent.add i =>
      match σ.mode with
      | QMode.idle =>
          match σ.queue ++ [i] with
          | [] => none
          | j :: rest =>
              some ({ queue := rest, mode := QMode.calling j, settled := σ.settled },
                [BLabel.callStart (mkWaveformPayload j)])
      | _ => some ({ σ with queue := σ.queue ++ [i] }, [])
  | QEvent.ret =>
      match σ.mode with
      | QMode.calling j =>
          if σ.queue.isEmpty then
            some ({ queue := σ.queue, mode := QMode.idle,
                    settled := σ.settled ++ [(j, backend (mkWaveformPayload j))] },
              [BLabel.callEnd])
          else
            some ({ queue := σ.queue, mode := QMode.delaying,
                    settled := σ.settled ++ [(j, backend (mkWaveformPayload j))] },
              [BLabel.callEnd])
      | _ => none
  | QEvent.tick =>
      match σ.mode with
      | QMode.delaying =>
          match σ.queue with
          | [] => some ({ σ with mode := QMode.idle }, [])
          | j :: rest =>
              some ({ queue := rest, mode := QMode.calling j, settled := σ.settled },
                [BLabel.callStart (mkWaveformPayload j)])
      | _ => none

/-- Initial state of the singleton queue. -/
def qInit : QState := { queue := [], mode := QMode.idle, settled := [] }

/-- Run of the queue over an event list, accumulating the call log. -/
def runQ (backend : GetWaveformPayload → Except String WaveformData) :
    QState → List BLabel → List QEvent → Option (QState × List BLabel)
  | σ, log, [] => some (σ, log)
  | σ, log, e :: es =>
      match qstep backend σ e with
      | none => none
      | some (σ2, l) => runQ backend σ2 (log ++ l) es

/-- Number of outstanding backend calls in a mode (0 or 1). -/
def modeDepth : QMode → ℕ
  | QMode.calling _ => 1
  | _ => 0

/-- Item currently dispatched to the backend, as a list. -/
def modeItems : QMode → List QItem
  | QMode.calling i => [i]
  | _ => []

/-- Call-log automaton: accepts only alternating start/end beginning at
depth 0 and never exceeding depth 1. -/
def wbStep : Option ℕ → BLabel → Option ℕ
  | some 0, BLabel.callStart _ => some 1
  | some 1, BLabel.callEnd => some 0
  | _, _ => none

/-- Depth after scanning a call log from an empty history, or `none` if
two calls ever overlap. -/
def wbRun (log : List BLabel) : Option ℕ := log.foldl wbStep (some 0)

/-- Items added by an event list, in arrival order. -/
def addsOf : List QEvent → List QItem
  | [] => []
  | QEvent.add i :: es => i :: addsOf es
  | _ :: es => addsOf es

/-! Hotkey display round-trip (`src/src/utils/hotkeyDisplay.ts`).

Strings are embedded as lists of characters.  `splitSub`/`joinSep` embed
the JavaScript `String.prototype.split` (leftmost non-overlapping
occurrences of a non-empty separator) and `Array.prototype.join`;
`splitSubFuel` carries a structural fuel argument equal to the string
length, which always suffices, so that the kernel can evaluate it. -/

abbrev Chars := List Char

def cs (s : String) : Chars := s.data

def leadsWith : Chars → Chars → Bool
  | [], _ => true
  | _ :: _, [] => false
  | p :: ps, c :: rest => if p = c then leadsWith ps rest else false

def hasSub (sep : Chars) : Chars → Bool
  | [] => sep.isEmpty
  | c :: rest => leadsWith sep (c :: rest) || hasSub sep rest

def splitSubFuel (sep : Chars) : ℕ → Chars → Chars → List Chars
  | 0, acc, s => [acc.reverse ++ s]
  | fuel + 1, acc, s =>
      match s with
      | [] => [acc.reverse]
      | c :: rest =>
          if sep ≠ [] ∧ leadsWith sep (c :: rest) = true then
            acc.reverse :: splitSubFuel sep fuel [] ((c :: rest).drop sep.length)
          else
            splitSubFuel sep fuel (c :: acc) rest

def splitSub (sep s : Chars) : List Chars := splitSubFuel sep s.length [] s

def joinSep (sep : Chars) : List Chars → Chars
  | [] => []
  | [p] => p
  | p :: q :: rest => p ++ sep ++ joinSep sep (q :: rest)

theorem leadsWith_iff (sep : Chars) : ∀ s : Chars,
    leadsWith sep s = true ↔ ∃ t, s = sep ++ t := by
  induction sep with
  | nil => intro s; simp [leadsWith]
  | cons p ps ih =>
      intro s
      cases s with
      | nil => simp [leadsWith]
      | cons c rest =>
          by_cases hp : p = c
          · subst hp
            simp [leadsWith, ih]
          · simp only [leadsWith, if_neg hp, List.cons_append]
            constructor
            · intro h
              exact absurd h (by simp)
            · rintro ⟨t, ht⟩
              exact absurd (List.cons.inj ht).1.symm hp

theorem splitSubFuel_ne_nil (sep : Chars) :
    ∀ fuel acc s, splitSubFuel sep fuel acc s ≠ [] := by
  intro fuel
  induction fuel with
  | zero => intro acc s; simp [splitSubFuel]
  | succ fuel ih =>
      intro acc s
      cases s with
      | nil => simp [splitSubFuel]
      | cons c rest =>
          rw [splitSubFuel]
          by_cases h : sep ≠ [] ∧ leadsWith sep (c :: rest) = true
          · simp only [if_pos h]
            simp
          · simp only [if_neg h]
            exact ih _ _

theorem joinSep_splitSubFuel (sep : Chars) :
    ∀ fuel acc s, joinSep sep (splitSubFuel sep fuel acc s) = acc.reverse ++ s := by
  intro fuel
  induction fuel with
  | zero => intro acc s; simp [splitSubFuel, joinSep]
  | succ fuel ih =>
      intro acc s
      cases s with
      | nil => simp [splitSubFuel, joinSep]
      | cons c rest =>
          rw [splitSubFuel]
          by_cases h : sep ≠ [] ∧ leadsWith sep (c :: rest) = true
          · simp only [if_pos h]
            obtain ⟨t, ht⟩ := (leadsWith_iff sep (c :: rest)).1 h.2
            cases hsplit : splitSubFuel sep fuel [] ((c :: rest).drop sep.length) with
            | nil => exact absurd hsplit (splitSubFuel_ne_nil _ _ _ _)
            | cons q rest2 =>
                have hjoin := ih [] ((c :: rest).drop sep.length)
                rw [hsplit] at hjoin
                rw [joinSep, hjoin]
                simp only [List.reverse_nil, List.nil_append]
                rw [ht, List.drop_left]
                simp [List.append_assoc]
          · simp only [if_neg h]
            rw [ih]
            simp

theorem joinSep_splitSub (sep s : Chars) : joinSep sep (splitSub sep s) = s := by
  simpa using joinSep_splitSubFuel sep s.length [] s

theorem splitSubFuel_of_no_sub (sep : Chars) (hsep : sep ≠ []) :
    ∀ fuel acc s, hasSub sep s = false →
      splitSubFuel sep fuel acc s = [acc.reverse ++ s] := by
  intro fuel
  induction fuel with
  | zero => intro acc s h; rfl
  | succ fuel ih =>
      intro acc s h
      cases s with
      | nil => simp [splitSubFuel]
      | cons c rest =>
          rw [hasSub, Bool.or_eq_false_iff] at h
          rw [splitSubFuel]
          simp only [if_neg (by simp [h.1] :
            ¬(sep ≠ [] ∧ leadsWith sep (c :: rest) = true))]
          rw [ih _ _ h.2]
          simp

theorem splitSubFuel_fuel_irrel (sep : Chars) :
    ∀ fuel fuel2 acc s, s.length ≤ fuel → s.length ≤ fuel2 →
      splitSubFuel sep fuel acc s = splitSubFuel sep fuel2 acc s := by
  intro fuel
  induction fuel with
  | zero =>
      intro fuel2 acc s h1 h2
      have hs : s = [] := List.eq_nil_of_length_eq_zero (Nat.le_zero.1 h1)
      subst hs
      cases fuel2 with
      | zero => rfl
      | succ fuel2 => simp [splitSubFuel]
  | succ fuel ih =>
      intro fuel2 acc s h1 h2
      cases s with
      | nil =>
          cases fuel2 with
          | zero => simp [splitSubFuel]
          | succ fuel2 => rfl
      | cons c rest =>
          cases fuel2 with
          | zero => simp at h2
          | succ fuel2 =>
              rw [splitSubFuel, splitSubFuel]
              by_cases h : sep ≠ [] ∧ leadsWith sep (c :: rest) = true
              · simp only [if_pos h]
                have hlen : ((c :: rest).drop sep.length).length ≤ fuel := by
                  have hsl : 1 ≤ sep.length := by
                    cases hx : sep with
                    | nil => exact absurd hx h.1
                    | cons a b => simp
                  simp only [List.length_drop, List.length_cons] at h1 ⊢
                  omega
                have hlen2 : ((c :: rest).drop sep.length).length ≤ fuel2 := by
                  have hsl : 1 ≤ sep.length := by
                    cases hx : sep with
                    | nil => exact absurd hx h.1
                    | cons a b => simp
                  simp only [List.length_drop, List.length_cons] at h2 ⊢
                  omega
                rw [ih fuel2 [] _ hlen hlen2]
              · simp only [if_neg h]
                exact ih fuel2 (c :: acc) rest (by simpa using h1) (by simpa using h2)


theorem leadsWith_append_of_le (pat : Chars) : ∀ (x u v : Chars),
    pat.length ≤ x.length → leadsWith pat (x ++ u) = leadsWith pat (x ++ v) := by
  induction pat with
  | nil => intro x u v h; simp [leadsWith]
  | cons p ps ih =>
      intro x u v h
      cases x with
      | nil => simp at h
      | cons c x2 =>
          simp only [List.cons_append, leadsWith]
          by_cases hp : p = c
          · simp only [if_pos hp]
            exact ih x2 u v (by simpa using h)
          · simp [hp]

theorem splitSubFuel_step (sep : Chars) (hsep : sep ≠ []) (b : Chars) :
    ∀ (f : Chars) (fuel : ℕ) (acc : Chars),
      (f ++ sep ++ b).length ≤ fuel →
      hasSub sep (f ++ sep.dropLast) = false →
      splitSubFuel sep fuel acc (f ++ sep ++ b)
        = (acc.reverse ++ f) :: splitSubFuel sep b.length [] b := by
  cases sep with
  | nil => exact absurd rfl hsep
  | cons c0 srest =>
      intro f
      induction f with
      | nil =>
          intro fuel acc hfuel hf
          rw [List.nil_append]
          cases fuel with
          | zero => simp at hfuel
          | succ fuel =>
              have harg : (c0 :: srest) ++ b = c0 :: (srest ++ b) := rfl
              rw [harg, splitSubFuel]
              have hlw : leadsWith (c0 :: srest) (c0 :: (srest ++ b)) = true :=
                (leadsWith_iff _ _).2 ⟨b, rfl⟩
              simp only [if_pos (And.intro (List.cons_ne_nil c0 srest) hlw)]
              have hdrop : List.drop (c0 :: srest).length (c0 :: (srest ++ b)) = b := by
                rw [← harg, List.drop_left]
              rw [hdrop]
              have hbl : b.length ≤ fuel := by
                simp only [← harg, List.length_append, List.length_cons] at hfuel
                omega
              rw [splitSubFuel_fuel_irrel _ fuel b.length [] b hbl (le_refl _)]
              simp
      | cons cf f2 ih =>
          intro fuel acc hfuel hf
          rw [List.cons_append, hasSub, Bool.or_eq_false_iff] at hf
          cases fuel with
          | zero => simp at hfuel
          | succ fuel =>
              have harg : (cf :: f2) ++ (c0 :: srest) ++ b
                  = cf :: (f2 ++ (c0 :: srest) ++ b) := by simp
              rw [harg, splitSubFuel]
              have hlast := List.dropLast_append_getLast (List.cons_ne_nil c0 srest)
              have hlw : leadsWith (c0 :: srest) (cf :: (f2 ++ (c0 :: srest) ++ b))
                  = false := by
                have hx : cf :: (f2 ++ (c0 :: srest) ++ b)
                    = (cf :: (f2 ++ (c0 :: srest).dropLast))
                      ++ ([(c0 :: srest).getLast (List.cons_ne_nil c0 srest)] ++ b) := by
                  conv_lhs => rw [← hlast]
                  simp [List.append_assoc]
                rw [hx]
                have hlen : (c0 :: srest).length
                    ≤ (cf :: (f2 ++ (c0 :: srest).dropLast)).length := by
                  simp [List.length_dropLast]
                rw [leadsWith_append_of_le _ _ _ [] hlen]
                rw [List.append_nil]
                exact hf.1
              have hcond : ¬((c0 :: srest) ≠ [] ∧
                  leadsWith (c0 :: srest) (cf :: (f2 ++ (c0 :: srest) ++ b)) = true) := by
                intro hc
                have hc2 := hc.2
                rw [show leadsWith (c0 :: srest) (cf :: (f2 ++ (c0 :: srest) ++ b)) = false
                  from hlw] at hc2
                exact absurd hc2 (by simp)
              simp only [if_neg hcond]
              rw [ih fuel (cf :: acc) (by simpa using hfuel) hf.2]
              simp

theorem splitSub_joinSep (sep : Chars) (hsep : sep ≠ []) :
    ∀ ps : List Chars, ps ≠ [] →
    (∀ p ∈ ps.dropLast, hasSub sep (p ++ sep.dropLast) = false) →
    (∀ p, ps.getLast? = some p → hasSub sep p = false) →
    splitSub sep (joinSep sep ps) = ps := by
  intro ps
  induction ps with
  | nil => intro h; exact absurd rfl h
  | cons p rest ih =>
      intro hne hmid hlast
      cases rest with
      | nil =>
          have hp : hasSub sep p = false := hlast p rfl
          unfold splitSub
          rw [joinSep, splitSubFuel_of_no_sub sep hsep _ [] p hp]
          simp
      | cons q rest2 =>
          have hpmid : hasSub sep (p ++ sep.dropLast) = false := by
            apply hmid
            rw [List.dropLast_cons₂]
            exact List.mem_cons_self _ _
          unfold splitSub
          rw [joinSep, splitSubFuel_step sep hsep _ p _ [] (le_refl _) hpmid]
          have hrest := ih (List.cons_ne_nil q rest2)
            (fun x hx => hmid x
              (by rw [List.dropLast_cons₂]; exact List.mem_cons_of_mem _ hx))
            (fun x hx => hlast x (by rw [List.getLast?_cons_cons]; exact hx))
          unfold splitSub at hrest
          rw [hrest]
          simp

def jsIsWS (c : Char) : Bool :=
  decide (c = ' ') || decide (c = '\t') || decide (c = '\n') || decide (c = '\r')

def jsTrim (s : Chars) : Chars :=
  ((s.dropWhile jsIsWS).reverse.dropWhile jsIsWS).reverse

def isFKeyStr : Chars → Bool
  | c :: rest => decide (c = 'F') && !rest.isEmpty && rest.all Char.isDigit
  | [] => false

def formatNumPadNumber (number : Chars) : Chars :=
  if number = cs "0" then cs "Numpad 0"
  else if number = cs "1" then cs "Numpad 1"
  else if number = cs "2" then cs "Numpad 2"
  else if number = cs "3" then cs "Numpad 3"
  else if number = cs "4" then cs "Numpad 4"
  else if number = cs "5" then cs "Numpad 5"
  else if number = cs "6" then cs "Numpad 6"
  else if number = cs "7" then cs "Numpad 7"
  else if number = cs "8" then cs "Numpad 8"
  else if number = cs "9" then cs "Numpad 9"
  else if number = cs "Decimal" then cs "Numpad ,"
  else if number = cs "Enter" then cs "Numpad Enter"
  else if number = cs "Add" then cs "Numpad +"
  else if number = cs "Subtract" then cs "Numpad -"
  else if number = cs "Multiply" then cs "Numpad *"
  else if number = cs "Divide" then cs "Numpad /"
  else cs "Numpad " ++ number

def formatPartTrimmed (trimmed : Chars) : Chars :=
  if trimmed = cs "Ctrl" then cs "Ctrl"
  else if trimmed = cs "Alt" then cs "Alt"
  else if trimmed = cs "Shift" then cs "Shift"
  else if trimmed = cs "Super" then cs "Win"
  else if trimmed = cs "Meta" then cs "Cmd"
  else if leadsWith (cs "NumPad") trimmed then
    formatNumPadNumber (trimmed.drop 6)
  else if isFKeyStr trimmed then trimmed
  else if trimmed = cs "ArrowUp" then cs "↑"
  else if trimmed = cs "ArrowDown" then cs "↓"
  else if trimmed = cs "ArrowLeft" then cs "←"
  else if trimmed = cs "ArrowRight" then cs "→"
  else if trimmed = cs "Space" then cs "Space"
  else if trimmed = cs "Enter" then cs "Enter"
  else if trimmed = cs "Tab" then cs "Tab"
  else if trimmed = cs "Escape" then cs "Esc"
  else if trimmed = cs "Backspace" then cs "Backspace"
  else if trimmed = cs "Delete" then cs "Delete"
  else if trimmed = cs "Home" then cs "Home"
  else if trimmed = cs "End" then cs "End"
  else if trimmed = cs "PageUp" then cs "Page Up"
  else if trimmed = cs "PageDown" then cs "Page Down"
  else if trimmed = cs "Insert" then cs "Insert"
  else
    match trimmed with
    | [c] => if c.isAlpha then [c.toUpper] else [c]
    | _ => trimmed

def formatPart (part : Chars) : Chars := formatPartTrimmed (jsTrim part)

def parseNumPadSuffix (suffix : Chars) : Chars :=
  if suffix = cs "0" then cs "NumPad0"
  else if suffix = cs "1" then cs "NumPad1"
  else if suffix = cs "2" then cs "NumPad2"
  else if suffix = cs "3" then cs "NumPad3"
  else if suffix = cs "4" then cs "NumPad4"
  else if suffix = cs "5" then cs "NumPad5"
  else if suffix = cs "6" then cs "NumPad6"
  else if suffix = cs "7" then cs "NumPad7"
  else if suffix = cs "8" then cs "NumPad8"
  else if suffix = cs "9" then cs "NumPad9"
  else if suffix = cs "," then cs "NumPadDecimal"
  else if suffix = cs "Enter" then cs "NumPadEnter"
  else if suffix = cs "+" then cs "NumPadAdd"
  else if suffix = cs "-" then cs "NumPadSubtract"
  else if suffix = cs "*" then cs "NumPadMultiply"
  else if suffix = cs "/" then cs "NumPadDivide"
  else cs "NumPad" ++ suffix

def parsePartTrimmed (trimmed : Chars) : Chars :=
  if trimmed = cs "Win" then cs "Super"
  else if trimmed = cs "Cmd" then cs "Meta"
  else if leadsWith (cs "Numpad ") trimmed then
    parseNumPadSuffix (trimmed.drop 7)
  else if trimmed = cs "↑" then cs "ArrowUp"
  else if trimmed = cs "↓" then cs "ArrowDown"
  else if trimmed = cs "←" then cs "ArrowLeft"
  else if trimmed = cs "→" then cs "ArrowRight"
  else if trimmed = cs "Space" then cs "Space"
  else if trimmed = cs "Esc" then cs "Escape"
  else if trimmed = cs "Backspace" then cs "Backspace"
  else if trimmed = cs "Delete" then cs "Delete"
  else if trimmed = cs "Home" then cs "Home"
  else if trimmed = cs "End" then cs "End"
  else if trimmed = cs "Page Up" then cs "PageUp"
  else if trimmed = cs "Page Down" then cs "PageDown"
  else if trimmed = cs "Insert" then cs "Insert"
  else trimmed

def parsePart (part : Chars) : Chars := parsePartTrimmed (jsTrim part)

def formatHotkeyForDisplay (h : Chars) : Chars :=
  joinSep (cs " + ") ((splitSub (cs "+") h).map formatPart)

def parseDisplayHotkey (d : Chars) : Chars :=
  joinSep (cs "+") ((splitSub (cs " + ") d).map parsePart)

def finiteCanonicalParts : List Chars :=
  ([ "Ctrl", "Alt", "Shift", "Super", "Meta",
     "NumPad0", "NumPad1", "NumPad2", "NumPad3", "NumPad4",
     "NumPad5", "NumPad6", "NumPad7", "NumPad8", "NumPad9",
     "NumPadDecimal", "NumPadEnter", "NumPadAdd", "NumPadSubtract",
     "NumPadMultiply", "NumPadDivide",
     "ArrowUp", "ArrowDown", "ArrowLeft", "ArrowRight",
     "Space", "Enter", "Tab", "Escape", "Backspace", "Delete",
     "Home", "End", "PageUp", "PageDown", "Insert",
     "0", "1", "2", "3", "4", "5", "6", "7", "8", "9",
     "A", "B", "C", "D", "E", "F", "G", "H", "I", "J", "K", "L", "M",
     "N", "O", "P", "Q", "R", "S", "T", "U", "V", "W", "X", "Y", "Z" ].map cs)

def canonicalPart (p : Chars) : Bool :=
  decide (p ∈ finiteCanonicalParts) || isFKeyStr p

/-! Lemmas about the embedded `Map` and `Set` operations. -/

theorem mapGet_eq_none_iff (m : List (String × String)) (k : String) :
    mapGet m k = none ↔ k ∉ m.map Prod.fst := by
  induction m with
  | nil => simp [mapGet]
  | cons e rest ih =>
      obtain ⟨k', v'⟩ := e
      by_cases h : k' = k <;> simp_all [mapGet, h] <;> tauto

theorem mem_keys_mapDelete (m : List (String × String)) (k x : String)
    (h : x ∈ (mapDelete m k).map Prod.fst) : x ∈ m.map Prod.fst ∧ x ≠ k := by
  induction m with
  | nil => simp [mapDelete] at h
  | cons e rest ih =>
      obtain ⟨k', v'⟩ := e
      by_cases hk : k' = k
      · rw [mapDelete, if_pos hk] at h
        have := ih h
        simp only [List.map_cons, List.mem_cons]
        exact ⟨Or.inr this.1, this.2⟩
      · rw [mapDelete, if_neg hk] at h
        simp only [List.map_cons, List.mem_cons] at h ⊢
        rcases h with h | h
        · subst h; exact ⟨Or.inl rfl, hk⟩
        · have := ih h
          exact ⟨Or.inr this.1, this.2⟩

theorem nodup_keys_mapDelete (m : List (String × String)) (k : String)
    (h : (m.map Prod.fst).Nodup) : ((mapDelete m k).map Prod.fst).Nodup := by
  induction m with
  | nil => simp [mapDelete]
  | cons e rest ih =>
      obtain ⟨k', v'⟩ := e
      simp only [List.map_cons, List.nodup_cons] at h
      by_cases hk : k' = k
      · simp only [mapDelete, if_pos hk]
        exact ih h.2
      · simp only [mapDelete, if_neg hk, List.map_cons, List.nodup_cons]
        exact ⟨fun hm => h.1 (mem_keys_mapDelete rest k k' hm).1, ih h.2⟩

theorem mem_keys_mapSet (m : List (String × String)) (k v x : String) :
    x ∈ (mapSet m k v).map Prod.fst ↔ x ∈ m.map Prod.fst ∨ x = k := by
  induction m with
  | nil => simp [mapSet]
  | cons e rest ih =>
      obtain ⟨k', v'⟩ := e
      by_cases hk : k' = k
      · subst hk
        simp [mapSet]
        tauto
      · simp [mapSet, hk, ih]
        tauto

theorem nodup_keys_mapSet (m : List (String × String)) (k v : String)
    (h : (m.map Prod.fst).Nodup) : ((mapSet m k v).map Prod.fst).Nodup := by
  induction m with
  | nil => simp [mapSet]
  | cons e rest ih =>
      obtain ⟨k', v'⟩ := e
      simp only [List.map_cons, List.nodup_cons] at h
      by_cases hk : k' = k
      · subst hk
        have hset : mapSet ((k', v') :: rest) k' v = (k', v) :: rest := by
          simp [mapSet]
        rw [hset]
        simp only [List.map_cons, List.nodup_cons]
        exact ⟨h.1, h.2⟩
      · simp only [mapSet, if_neg hk, List.map_cons, List.nodup_cons]
        refine ⟨fun hm => ?_, ih h.2⟩
        rcases (mem_keys_mapSet rest k v k').1 hm with hm | hm
        · exact h.1 hm
        · exact hk hm

theorem mapGet_mapSet_self (m : List (String × String)) (k v : String) :
    mapGet (mapSet m k v) k = some v := by
  induction m with
  | nil => simp [mapSet, mapGet]
  | cons e rest ih =>
      obtain ⟨k', v'⟩ := e
      by_cases hk : k' = k <;> simp [mapSet, mapGet, hk, ih]

theorem mapGet_mapSet_ne (m : List (String × String)) (k v x : String)
    (h : x ≠ k) : mapGet (mapSet m k v) x = mapGet m x := by
  induction m with
  | nil => simp [mapSet, mapGet, h.symm]
  | cons e rest ih =>
      obtain ⟨k', v'⟩ := e
      by_cases hk : k' = k
      · subst hk
        simp [mapSet, mapGet, h.symm]
      · simp only [mapSet, if_neg hk]
        by_cases hx : k' = x <;> simp [mapGet, hx, ih]

theorem mapGet_mapDelete_ne (m : List (String × String)) (k x : String)
    (h : x ≠ k) : mapGet (mapDelete m k) x = mapGet m x := by
  induction m with
  | nil => simp [mapDelete]
  | cons e rest ih =>
      obtain ⟨k', v'⟩ := e
      by_cases hk : k' = k
      · subst hk
        simp [mapDelete, mapGet, h.symm, ih]
      · by_cases hx : k' = x <;> simp [mapDelete, mapGet, hk, hx, h, ih]

theorem mapGet_mapDelete_self (m : List (String × String)) (k : String) :
    mapGet (mapDelete m k) k = none := by
  rw [mapGet_eq_none_iff]
  exact fun hm => (mem_keys_mapDelete m k k hm).2 rfl

theorem mapDelete_of_not_mem (m : List (String × String)) (k : String)
    (h : k ∉ m.map Prod.fst) : mapDelete m k = m := by
  induction m with
  | nil => simp [mapDelete]
  | cons e rest ih =>
      obtain ⟨k', v'⟩ := e
      simp only [List.map_cons, List.mem_cons, not_or] at h
      have hne : k' ≠ k := fun hk => h.1 hk.symm
      simp [mapDelete, hne, ih h.2]

theorem setDelete_eq_filter (s : List String) (y : String) :
    setDelete s y = s.filter (fun z => z ≠ y) := by
  induction s with
  | nil => rfl
  | cons z rest ih =>
      by_cases hz : z = y <;> simp [setDelete, hz, ih]

theorem mem_setDelete (s : List String) (y x : String) :
    x ∈ setDelete s y ↔ x ∈ s ∧ x ≠ y := by
  rw [setDelete_eq_filter]
  simp [List.mem_filter]

theorem mem_setAdd (s : List String) (y x : String) :
    x ∈ setAdd s y ↔ x ∈ s ∨ x = y := by
  unfold setAdd
  by_cases h : y ∈ s
  · simp only [if_pos h]
    constructor
    · exact Or.inl
    · rintro (hx | hx)
      · exact hx
      · subst hx; exact h
  · simp [if_neg h]

theorem setDelete_of_not_mem (s : List String) (x : String) (h : x ∉ s) :
    setDelete s x = s := by
  rw [setDelete_eq_filter]
  exact List.filter_eq_self.2 (fun a ha => by simp; exact fun he => h (he ▸ ha))

theorem setDelete_append (a b : List String) (x : String) :
    setDelete (a ++ b) x = setDelete a x ++ setDelete b x := by
  simp [setDelete_eq_filter, List.filter_append]

theorem setDelete_setAdd_self (s : List String) (x : String) :
    setDelete (setAdd s x) x = setDelete s x := by
  unfold setAdd
  by_cases h : x ∈ s
  · simp [if_pos h]
  · simp [if_neg h, setDelete_append, setDelete]

theorem keyCount_cons (k' v' k : String) (rest : List (String × String)) :
    keyCount ((k', v') :: rest) k =
      (if k' = k then 1 else 0) + keyCount rest k := by
  by_cases hk : k' = k <;> simp [keyCount, List.filter_cons, hk] <;> omega

theorem keyCount_eq_zero (m : List (String × String)) (k : String)
    (h : k ∉ m.map Prod.fst) : keyCount m k = 0 := by
  induction m with
  | nil => rfl
  | cons e rest ih =>
      obtain ⟨k', v'⟩ := e
      simp only [List.map_cons, List.mem_cons, not_or] at h
      have hne : k' ≠ k := fun hk => h.1 hk.symm
      rw [keyCount_cons, if_neg hne, ih h.2]

theorem keyCount_le_one (m : List (String × String)) (k : String)
    (h : (m.map Prod.fst).Nodup) : keyCount m k ≤ 1 := by
  induction m with
  | nil => simp [keyCount]
  | cons e rest ih =>
      obtain ⟨k', v'⟩ := e
      simp only [List.map_cons, List.nodup_cons] at h
      rw [keyCount_cons]
      by_cases hk : k' = k
      · subst hk
        rw [keyCount_eq_zero rest k' h.1]
        simp
      · rw [if_neg hk]
        simpa using ih h.2

/-! Preservation of the tracking invariant by every mutating handler. -/

theorem trackInv_delete_both (σ : DashboardState) (sid : String)
    (aw : Option ActiveWaveform) (ex : Bool) (h : TrackInv σ) :
    TrackInv ⟨mapDelete σ.playingSounds sid, setDelete σ.playingSoundIds sid,
      aw, ex⟩ := by
  refine ⟨nodup_keys_mapDelete _ _ h.1, fun x hx => ?_⟩
  have hm := (mem_setDelete _ _ _).1 hx
  show (mapGet (mapDelete σ.playingSounds sid) x).isSome
  rw [mapGet_mapDelete_ne _ _ _ hm.2]
  exact h.2 x hm.1

theorem trackInv_restartCleanup (σ : DashboardState) (sid : String) (ok : Bool)
    (h : TrackInv σ) : TrackInv (restartCleanup σ sid ok) := by
  cases ok with
  | false => simpa [restartCleanup] using h
  | true =>
      simp only [restartCleanup, if_pos]
      exact trackInv_delete_both σ sid σ.activeWaveform σ.isWaveformExiting h

theorem trackInv_startAttempt (σ : DashboardState) (sound : Sound)
    (d1 d2 : String) (v : ℚ) (res : Except String String) (h : TrackInv σ) :
    TrackInv (startAttempt σ sound d1 d2 v res) := by
  cases res with
  | ok pid =>
      refine ⟨nodup_keys_mapSet _ _ _ h.1, fun x hx => ?_⟩
      simp only [startAttempt] at hx ⊢
      by_cases hxs : x = sound.id
      · show (mapGet (mapSet σ.playingSounds sound.id pid) x).isSome
        rw [hxs, mapGet_mapSet_self]
        rfl
      · show (mapGet (mapSet σ.playingSounds sound.id pid) x).isSome
        rw [mapGet_mapSet_ne _ _ _ _ hxs]
        rcases (mem_setAdd _ _ _).1 hx with hx' | hx'
        · exact h.2 x hx'
        · exact absurd hx' hxs
  | error e =>
      refine ⟨nodup_keys_mapDelete _ _ h.1, fun x hx => ?_⟩
      simp only [startAttempt] at hx ⊢
      have hm := (mem_setDelete _ _ _).1 hx
      have hx' : x ∈ σ.playingSoundIds := by
        rcases (mem_setAdd _ _ _).1 hm.1 with h1 | h1
        · exact h1
        · exact absurd h1 hm.2
      show (mapGet (mapDelete σ.playingSounds sound.id) x).isSome
      rw [mapGet_mapDelete_ne _ _ _ hm.2]
      exact h.2 x hx'

theorem trackInv_playSoundState (σ : DashboardState) (sound : Sound)
    (d1 d2 : String) (v : ℚ) (stopOk : Bool) (res : Except String String)
    (h : TrackInv σ) :
    TrackInv (playSoundState σ sound d1 d2 v stopOk res) := by
  unfold playSoundState playSoundFull
  by_cases hdev : d1 = "" ∨ d2 = ""
  · simpa [hdev] using h
  · rw [if_neg hdev]
    cases hget : mapGet σ.playingSounds sound.id with
    | none =>
        simpa using trackInv_startAttempt σ sound d1 d2 v res h
    | some pid =>
        simpa using trackInv_startAttempt _ sound d1 d2 v res
          (trackInv_restartCleanup σ sound.id stopOk h)

theorem trackInv_completeHandler (library : List Sound) (σ : DashboardState)
    (p : String) (h : TrackInv σ) : TrackInv (completeHandler library σ p) := by
  unfold completeHandler
  repeat' split
  all_goals first
    | exact h
    | exact trackInv_delete_both σ _ _ _ h

theorem trackInv_stopAllAudio (σ : DashboardState) (ok : Bool)
    (h : TrackInv σ) : TrackInv (stopAllAudio σ ok).1 := by
  cases ok with
  | false => simpa [stopAllAudio] using h
  | true =>
      refine ⟨by simp [stopAllAudio], fun x hx => ?_⟩
      simp [stopAllAudio] at hx

/-- C2: after every tracking-mutating operation (`playSound`, the
`playback-complete` handler, `stopAllAudio`), each sound id is associated
with at most one active playback id in the tracking map, and every member
of the playing-sound-ids set has an entry in the map. -/
theorem claim_C2_tracking_invariant (σ : DashboardState) (library : List Sound)
    (sound : Sound) (d1 d2 : String) (v : ℚ) (stopOk : Bool)
    (res : Except String String) (p : String) (ok : Bool)
    (h : TrackInv σ) :
    (TrackInv (playSoundState σ sound d1 d2 v stopOk res) ∧
      ∀ sid, keyCount (playSoundState σ sound d1 d2 v stopOk res).playingSounds sid ≤ 1) ∧
    (TrackInv (completeHandler library σ p) ∧
      ∀ sid, keyCount (completeHandler library σ p).playingSounds sid ≤ 1) ∧
    (TrackInv (stopAllAudio σ ok).1 ∧
      ∀ sid, keyCount (stopAllAudio σ ok).1.playingSounds sid ≤ 1) := by
  have h1 := trackInv_playSoundState σ sound d1 d2 v stopOk res h
  have h2 := trackInv_completeHandler library σ p h
  have h3 := trackInv_stopAllAudio σ ok h
  exact ⟨⟨h1, fun sid => keyCount_le_one _ _ h1.1⟩,
         ⟨h2, fun sid => keyCount_le_one _ _ h2.1⟩,
         ⟨h3, fun sid => keyCount_le_one _ _ h3.1⟩⟩

/-- Witness for C2 at a concrete state, sound and event parameters. -/
theorem claim_C2_tracking_invariant_witness :
    TrackInv sampleState ∧
    ((TrackInv (playSoundState sampleState sampleSound "dev-1" "dev-2" (1/2) true
        (Except.ok "pb-2")) ∧
      ∀ sid, keyCount (playSoundState sampleState sampleSound "dev-1" "dev-2" (1/2) true
        (Except.ok "pb-2")).playingSounds sid ≤ 1) ∧
     (TrackInv (completeHandler [sampleSound] sampleState "pb-1") ∧
      ∀ sid, keyCount (completeHandler [sampleSound] sampleState "pb-1").playingSounds sid ≤ 1) ∧
     (TrackInv (stopAllAudio sampleState true).1 ∧
      ∀ sid, keyCount (stopAllAudio sampleState true).1.playingSounds sid ≤ 1)) :=
  ⟨by decide,
   claim_C2_tracking_invariant sampleState [sampleSound] sampleSound "dev-1" "dev-2"
     (1/2) true (Except.ok "pb-2") "pb-1" true (by decide)⟩

/-- C3: when a sound with no active playback is played and the
`play_dual_output` invocation rejects, `playSound` leaves the whole
tracking state unchanged — the sound is in neither tracking structure and
the active-session count is what it was before the call. -/
theorem claim_C3_play_error_unchanged (σ : DashboardState) (sound : Sound)
    (d1 d2 : String) (v : ℚ) (err : String) (stopOk : Bool)
    (hInv : TrackInv σ) (h1 : d1 ≠ "") (h2 : d2 ≠ "")
    (hNo : mapGet σ.playingSounds sound.id = none) :
    playSoundState σ sound d1 d2 v stopOk (Except.error err) = σ ∧
    mapGet (playSoundState σ sound d1 d2 v stopOk (Except.error err)).playingSounds
      sound.id = none ∧
    sound.id ∉ (playSoundState σ sound d1 d2 v stopOk (Except.error err)).playingSoundIds ∧
    (playSoundState σ sound d1 d2 v stopOk (Except.error err)).playingSounds.length
      = σ.playingSounds.length := by
  have hNotIds : sound.id ∉ σ.playingSoundIds := by
    intro hmem
    have := hInv.2 sound.id hmem
    rw [hNo] at this
    exact Bool.noConfusion this
  have hEq : playSoundState σ sound d1 d2 v stopOk (Except.error err) = σ := by
    unfold playSoundState playSoundFull
    rw [if_neg (by tauto), hNo]
    simp only [startAttempt]
    have hmap : mapDelete σ.playingSounds sound.id = σ.playingSounds :=
      mapDelete_of_not_mem _ _ ((mapGet_eq_none_iff _ _).1 hNo)
    have hids : setDelete (setAdd σ.playingSoundIds sound.id) sound.id
        = σ.playingSoundIds := by
      rw [setDelete_setAdd_self, setDelete_of_not_mem _ _ hNotIds]
    cases σ with
    | mk a b c d => simp_all
  refine ⟨hEq, ?_, ?_, ?_⟩ <;> rw [hEq]
  · exact hNo
  · exact hNotIds

/-- Witness for C3: playing a fresh sound on a nonexistent device errors
and leaves the sample state untouched. -/
theorem claim_C3_play_error_unchanged_witness :
    TrackInv sampleState ∧ ("dev-1" : String) ≠ "" ∧ ("dev-2" : String) ≠ "" ∧
    mapGet sampleState.playingSounds sampleSound.id = none ∧
    (playSoundState sampleState sampleSound "dev-1" "dev-2" (1/2) false
      (Except.error "DeviceError: no such device") = sampleState ∧
     mapGet (playSoundState sampleState sampleSound "dev-1" "dev-2" (1/2) false
      (Except.error "DeviceError: no such device")).playingSounds sampleSound.id = none ∧
     sampleSound.id ∉ (playSoundState sampleState sampleSound "dev-1" "dev-2" (1/2) false
      (Except.error "DeviceError: no such device")).playingSoundIds ∧
     (playSoundState sampleState sampleSound "dev-1" "dev-2" (1/2) false
      (Except.error "DeviceError: no such device")).playingSounds.length
       = sampleState.playingSounds.length) :=
  ⟨by decide, by decide, by decide, by decide,
   claim_C3_play_error_unchanged sampleState sampleSound "dev-1" "dev-2" (1/2)
     "DeviceError: no such device" false (by decide) (by decide) (by decide) (by decide)⟩

/-! C1: restart semantics of `playSound`. -/

/-- C1: when `playSound` runs for a sound that already has a tracked
playback id and the stop invocation resolves, the trace is exactly
stop-prior, bounded 100 ms teardown wait, then the new play command; the
tracking entries for the sound are gone in the state from which the new
play is issued; and every tracking snapshot holds at most one playback id
for the sound. -/
theorem claim_C1_restart_stop_before_play (σ : DashboardState) (sound : Sound)
    (d1 d2 : String) (v : ℚ) (pid : String) (res : Except String String)
    (hInv : TrackInv σ) (h1 : d1 ≠ "") (h2 : d2 ≠ "")
    (hActive : mapGet σ.playingSounds sound.id = some pid) :
    playSoundTrace σ sound d1 d2 v true res =
      [Cmd.stop pid, Cmd.wait 100, Cmd.play (mkPlayPayload sound d1 d2 v)] ∧
    mapGet (restartCleanup σ sound.id true).playingSounds sound.id = none ∧
    sound.id ∉ (restartCleanup σ sound.id true).playingSoundIds ∧
    ∀ σi ∈ playSoundSnapshots σ sound d1 d2 v true res,
      keyCount σi.playingSounds sound.id ≤ 1 := by
  have hdev : ¬(d1 = "" ∨ d2 = "") := by tauto
  refine ⟨?_, ?_, ?_, ?_⟩
  · unfold playSoundTrace playSoundFull
    rw [if_neg hdev, hActive]
    rfl
  · simp only [restartCleanup, if_pos]
    exact mapGet_mapDelete_self _ _
  · simp only [restartCleanup, if_pos]
    intro hmem
    exact ((mem_setDelete _ _ _).1 hmem).2 rfl
  · intro σi hmem
    unfold playSoundSnapshots playSoundFull at hmem
    rw [if_neg hdev, hActive] at hmem
    have hInv1 : TrackInv (restartCleanup σ sound.id true) :=
      trackInv_restartCleanup σ sound.id true hInv
    have hInv2 : TrackInv (startAttempt (restartCleanup σ sound.id true) sound d1 d2 v res) :=
      trackInv_startAttempt _ sound d1 d2 v res hInv1
    simp only [List.mem_cons, List.mem_singleton] at hmem
    rcases hmem with rfl | rfl | rfl | rfl | hmem
    · exact keyCount_le_one _ _ hInv.1
    · exact keyCount_le_one _ _ hInv1.1
    · exact keyCount_le_one _ _ hInv1.1
    · exact keyCount_le_one _ _ hInv2.1
    · simp at hmem

/-- Witness for C1: re-triggering the already-playing sample sound. -/
theorem claim_C1_restart_stop_before_play_witness :
    TrackInv sampleState ∧ ("dev-1" : String) ≠ "" ∧ ("dev-2" : String) ≠ "" ∧
    mapGet sampleState.playingSounds sampleSoundA.id = some "pb-1" ∧
    (playSoundTrace sampleState sampleSoundA "dev-1" "dev-2" (1/2) true
        (Except.ok "pb-2") =
      [Cmd.stop "pb-1", Cmd.wait 100,
        Cmd.play (mkPlayPayload sampleSoundA "dev-1" "dev-2" (1/2))] ∧
     mapGet (restartCleanup sampleState sampleSoundA.id true).playingSounds
        sampleSoundA.id = none ∧
     sampleSoundA.id ∉ (restartCleanup sampleState sampleSoundA.id true).playingSoundIds ∧
     ∀ σi ∈ playSoundSnapshots sampleState sampleSoundA "dev-1" "dev-2" (1/2) true
        (Except.ok "pb-2"),
       keyCount σi.playingSounds sampleSoundA.id ≤ 1) :=
  ⟨by decide, by decide, by decide, by decide,
   claim_C1_restart_stop_before_play sampleState sampleSoundA "dev-1" "dev-2" (1/2)
     "pb-1" (Except.ok "pb-2") (by decide) (by decide) (by decide) (by decide)⟩

/-! C4: events for an already-completed playback id are no-ops. -/

theorem mapDelete_eq_filter (m : List (String × String)) (k : String) :
    mapDelete m k = m.filter (fun e => e.1 ≠ k) := by
  induction m with
  | nil => rfl
  | cons e rest ih =>
      obtain ⟨k', v'⟩ := e
      by_cases hk : k' = k <;> simp [mapDelete, hk, ih]

theorem mem_mapDelete (m : List (String × String)) (k : String)
    (e : String × String) : e ∈ mapDelete m k ↔ e ∈ m ∧ e.1 ≠ k := by
  rw [mapDelete_eq_filter]
  simp [List.mem_filter]

theorem lookupSoundByPid_eq_none_iff (m : List (String × String)) (p : String) :
    lookupSoundByPid m p = none ↔ p ∉ m.map Prod.snd := by
  induction m with
  | nil => simp [lookupSoundByPid]
  | cons e rest ih =>
      obtain ⟨sid, pid⟩ := e
      by_cases h : pid = p <;> simp_all [lookupSoundByPid, h] <;> tauto

theorem lookupSoundByPid_mem (m : List (String × String)) (p sid : String)
    (h : lookupSoundByPid m p = some sid) : (sid, p) ∈ m := by
  induction m with
  | nil => simp [lookupSoundByPid] at h
  | cons e rest ih =>
      obtain ⟨sid', pid'⟩ := e
      by_cases hp : pid' = p
      · rw [lookupSoundByPid, if_pos hp] at h
        cases h
        subst hp
        exact List.mem_cons_self _ _
      · rw [lookupSoundByPid, if_neg hp] at h
        exact List.mem_cons_of_mem _ (ih h)

theorem progressHandler_noop (σ : DashboardState) (p : String) (e t : ℚ)
    (h : p ∉ σ.playingSounds.map Prod.snd) : progressHandler σ p e t = σ := by
  unfold progressHandler
  rw [(lookupSoundByPid_eq_none_iff _ _).2 h]

theorem completeHandler_noop (library : List Sound) (σ : DashboardState)
    (p : String) (h : p ∉ σ.playingSounds.map Prod.snd) :
    completeHandler library σ p = σ := by
  unfold completeHandler
  rw [(lookupSoundByPid_eq_none_iff _ _).2 h]

theorem completeHandler_playingSounds (library : List Sound) (σ : DashboardState)
    (p : String) :
    (completeHandler library σ p).playingSounds =
      (match lookupSoundByPid σ.playingSounds p with
       | none => σ.playingSounds
       | some sid => mapDelete σ.playingSounds sid) := by
  cases hl : lookupSoundByPid σ.playingSounds p with
  | none => simp [completeHandler, hl]
  | some sid =>
      cases haw : σ.activeWaveform with
      | none => simp [completeHandler, hl, haw]
      | some prev =>
          by_cases hp : prev.soundId = sid <;>
            simp only [completeHandler, hl, haw, if_pos, if_neg, hp, ite_true,
              ite_false] <;>
            (repeat' split) <;> rfl

theorem completeHandler_removes (library : List Sound) (σ : DashboardState)
    (p : String) (hvals : (σ.playingSounds.map Prod.snd).Nodup) :
    p ∉ (completeHandler library σ p).playingSounds.map Prod.snd := by
  rw [completeHandler_playingSounds]
  cases hl : lookupSoundByPid σ.playingSounds p with
  | none => exact (lookupSoundByPid_eq_none_iff _ _).1 hl
  | some sid =>
      intro hmem
      simp only [List.mem_map] at hmem
      obtain ⟨e, he, hep⟩ := hmem
      have hm := (mem_mapDelete _ _ _).1 he
      have hpair : e = (sid, p) :=
        List.inj_on_of_nodup_map hvals hm.1 (lookupSoundByPid_mem _ _ _ hl) hep
      exact hm.2 (by rw [hpair])

/-- C4: once a `playback-complete` event for a playback id has been
processed (which removes the id from the tracking map, playback ids being
pairwise distinct), a later `playback-progress` event for that id leaves
the whole state — tracking and active-waveform display — unchanged, and a
second `playback-complete` event for it is likewise a no-op. -/
theorem claim_C4_stale_events_are_noops (σ : DashboardState)
    (library : List Sound) (p : String) (e t : ℚ)
    (hvals : (σ.playingSounds.map Prod.snd).Nodup) :
    p ∉ (completeHandler library σ p).playingSounds.map Prod.snd ∧
    progressHandler (completeHandler library σ p) p e t
      = completeHandler library σ p ∧
    completeHandler library (completeHandler library σ p) p
      = completeHandler library σ p := by
  have hgone := completeHandler_removes library σ p hvals
  exact ⟨hgone, progressHandler_noop _ p e t hgone,
    completeHandler_noop library _ p hgone⟩

/-- Witness for C4 at the sample state. -/
theorem claim_C4_stale_events_are_noops_witness :
    (sampleState.playingSounds.map Prod.snd).Nodup ∧
    ("pb-1" ∉ (completeHandler [sampleSoundA] sampleState "pb-1").playingSounds.map
        Prod.snd ∧
     progressHandler (completeHandler [sampleSoundA] sampleState "pb-1") "pb-1"
        250 1000 = completeHandler [sampleSoundA] sampleState "pb-1" ∧
     completeHandler [sampleSoundA] (completeHandler [sampleSoundA] sampleState "pb-1")
        "pb-1" = completeHandler [sampleSoundA] sampleState "pb-1") :=
  ⟨by decide,
   claim_C4_stale_events_are_noops sampleState [sampleSoundA] "pb-1" 250 1000
     (by decide)⟩

/-! Lemmas for the hotkey display round-trip. -/


theorem ne_of_head (c d : Char) (h : c ≠ d) (l1 l2 : Chars) : (c :: l1) ≠ (d :: l2) := by
  intro he
  exact h (List.cons.inj he).1

theorem leadsWith_head_ne (a b : Char) (h : a ≠ b) (l1 l2 : Chars) :
    leadsWith (a :: l1) (b :: l2) = false := by
  simp [leadsWith, h]

theorem dropWhile_eq_self_of_not (f : Char → Bool) (p : Chars)
    (hp : ∀ c ∈ p, f c = false) : p.dropWhile f = p := by
  cases p with
  | nil => rfl
  | cons c rest =>
      rw [List.dropWhile_cons, if_neg]
      simp [hp c (List.mem_cons_self c rest)]

theorem jsTrim_eq_self (p : Chars) (hp : ∀ c ∈ p, jsIsWS c = false) : jsTrim p = p := by
  unfold jsTrim
  rw [dropWhile_eq_self_of_not _ _ hp]
  rw [dropWhile_eq_self_of_not _ _ (fun c hc => hp c (List.mem_reverse.1 hc))]
  exact List.reverse_reverse p

theorem hasSub_spp_self (p : Chars) (hp : ∀ c ∈ p, c ≠ ' ' ∧ c ≠ '+') :
    hasSub (cs " + ") p = false := by
  induction p with
  | nil => decide
  | cons c rest ih =>
      rw [hasSub, Bool.or_eq_false_iff]
      refine ⟨?_, ih (fun x hx => hp x (List.mem_cons_of_mem _ hx))⟩
      have hc := (hp c (List.mem_cons_self c rest)).1
      exact leadsWith_head_ne ' ' c (fun he => hc he.symm) _ _

theorem hasSub_spp_pad (p : Chars) (hp : ∀ c ∈ p, c ≠ ' ' ∧ c ≠ '+') :
    hasSub (cs " + ") (p ++ [' ', '+']) = false := by
  induction p with
  | nil => decide
  | cons c rest ih =>
      rw [List.cons_append, hasSub, Bool.or_eq_false_iff]
      refine ⟨?_, ih (fun x hx => hp x (List.mem_cons_of_mem _ hx))⟩
      have hc := (hp c (List.mem_cons_self c rest)).1
      exact leadsWith_head_ne ' ' c (fun he => hc he.symm) _ _

theorem fkey_shape (p : Chars) (h : isFKeyStr p = true) :
    ∃ rest, p = 'F' :: rest ∧ rest ≠ [] ∧ rest.all Char.isDigit = true := by
  cases p with
  | nil => simp [isFKeyStr] at h
  | cons c rest =>
      rw [isFKeyStr] at h
      simp only [Bool.and_eq_true, decide_eq_true_eq] at h
      obtain ⟨⟨hc, hrest⟩, hdig⟩ := h
      subst hc
      refine ⟨rest, rfl, ?_, hdig⟩
      simpa using hrest

theorem fkey_chars_clean (p : Chars) (h : isFKeyStr p = true) :
    ∀ c ∈ p, c ≠ ' ' ∧ c ≠ '+' := by
  obtain ⟨rest, hp, hne, hdig⟩ := fkey_shape p h
  subst hp
  intro c hc
  rcases List.mem_cons.1 hc with rfl | hc
  · exact ⟨by decide, by decide⟩
  · have hd : c.isDigit = true := by
      rw [List.all_eq_true] at hdig
      exact hdig c hc
    constructor
    · intro he; subst he; exact absurd hd (by decide)
    · intro he; subst he; exact absurd hd (by decide)

theorem fkey_chars_not_ws (p : Chars) (h : isFKeyStr p = true) :
    ∀ c ∈ p, jsIsWS c = false := by
  obtain ⟨rest, hp, hne, hdig⟩ := fkey_shape p h
  subst hp
  intro c hc
  rcases List.mem_cons.1 hc with rfl | hc
  · decide
  · have hd : c.isDigit = true := by
      rw [List.all_eq_true] at hdig
      exact hdig c hc
    unfold jsIsWS
    have h1 : c ≠ ' ' := by intro he; subst he; exact absurd hd (by decide)
    have h2 : c ≠ '\t' := by intro he; subst he; exact absurd hd (by decide)
    have h3 : c ≠ '\n' := by intro he; subst he; exact absurd hd (by decide)
    have h4 : c ≠ '\r' := by intro he; subst he; exact absurd hd (by decide)
    simp [h1, h2, h3, h4]

theorem formatPart_fkey (p : Chars) (h : isFKeyStr p = true) : formatPart p = p := by
  obtain ⟨rest, hp, hne, hdig⟩ := fkey_shape p h
  have htrim : jsTrim p = p := jsTrim_eq_self p (fkey_chars_not_ws p h)
  unfold formatPart
  rw [htrim]
  subst hp
  unfold formatPartTrimmed
  have h1 : ('F' :: rest) ≠ cs "Ctrl" := ne_of_head 'F' 'C' (by decide) rest (cs "trl")
  have h2 : ('F' :: rest) ≠ cs "Alt" := ne_of_head 'F' 'A' (by decide) rest (cs "lt")
  have h3 : ('F' :: rest) ≠ cs "Shift" := ne_of_head 'F' 'S' (by decide) rest (cs "hift")
  have h4 : ('F' :: rest) ≠ cs "Super" := ne_of_head 'F' 'S' (by decide) rest (cs "uper")
  have h5 : ('F' :: rest) ≠ cs "Meta" := ne_of_head 'F' 'M' (by decide) rest (cs "eta")
  have h6 : leadsWith (cs "NumPad") ('F' :: rest) = false :=
    leadsWith_head_ne 'N' 'F' (by decide) (cs "umPad") rest
  rw [if_neg h1, if_neg h2, if_neg h3, if_neg h4, if_neg h5,
      if_neg (by simp [h6]), if_pos h]

theorem parsePart_fkey (p : Chars) (h : isFKeyStr p = true) : parsePart p = p := by
  obtain ⟨rest, hp, hne, hdig⟩ := fkey_shape p h
  have htrim : jsTrim p = p := jsTrim_eq_self p (fkey_chars_not_ws p h)
  unfold parsePart
  rw [htrim]
  subst hp
  unfold parsePartTrimmed
  have h1 : ('F' :: rest) ≠ cs "Win" := ne_of_head 'F' 'W' (by decide) rest (cs "in")
  have h2 : ('F' :: rest) ≠ cs "Cmd" := ne_of_head 'F' 'C' (by decide) rest (cs "md")
  have h3 : leadsWith (cs "Numpad ") ('F' :: rest) = false :=
    leadsWith_head_ne 'N' 'F' (by decide) (cs "umpad ") rest
  have h4 : ('F' :: rest) ≠ cs "↑" := ne_of_head 'F' '↑' (by decide) rest (cs "")
  have h5 : ('F' :: rest) ≠ cs "↓" := ne_of_head 'F' '↓' (by decide) rest (cs "")
  have h6 : ('F' :: rest) ≠ cs "←" := ne_of_head 'F' '←' (by decide) rest (cs "")
  have h7 : ('F' :: rest) ≠ cs "→" := ne_of_head 'F' '→' (by decide) rest (cs "")
  have h8 : ('F' :: rest) ≠ cs "Space" := ne_of_head 'F' 'S' (by decide) rest (cs "pace")
  have h9 : ('F' :: rest) ≠ cs "Esc" := ne_of_head 'F' 'E' (by decide) rest (cs "sc")
  have h10 : ('F' :: rest) ≠ cs "Backspace" :=
    ne_of_head 'F' 'B' (by decide) rest (cs "ackspace")
  have h11 : ('F' :: rest) ≠ cs "Delete" := ne_of_head 'F' 'D' (by decide) rest (cs "elete")
  have h12 : ('F' :: rest) ≠ cs "Home" := ne_of_head 'F' 'H' (by decide) rest (cs "ome")
  have h13 : ('F' :: rest) ≠ cs "End" := ne_of_head 'F' 'E' (by decide) rest (cs "nd")
  have h14 : ('F' :: rest) ≠ cs "Page Up" :=
    ne_of_head 'F' 'P' (by decide) rest (cs "age Up")
  have h15 : ('F' :: rest) ≠ cs "Page Down" :=
    ne_of_head 'F' 'P' (by decide) rest (cs "age Down")
  have h16 : ('F' :: rest) ≠ cs "Insert" := ne_of_head 'F' 'I' (by decide) rest (cs "nsert")
  rw [if_neg h1, if_neg h2, if_neg (by simp [h3]), if_neg h4, if_neg h5, if_neg h6,
      if_neg h7, if_neg h8, if_neg h9, if_neg h10, if_neg h11, if_neg h12,
      if_neg h13, if_neg h14, if_neg h15, if_neg h16]

theorem roundtrip_finite :
    ∀ p ∈ finiteCanonicalParts, parsePart (formatPart p) = p := by decide

theorem finite_no_spp :
    ∀ p ∈ finiteCanonicalParts, hasSub (cs " + ") (formatPart p) = false := by decide

theorem finite_no_collision :
    ∀ p ∈ finiteCanonicalParts, p = cs "NumPadAdd" ∨
      hasSub (cs " + ") (formatPart p ++ [' ', '+']) = false := by decide

theorem canonical_cases (p : Chars) (h : canonicalPart p = true) :
    p ∈ finiteCanonicalParts ∨ isFKeyStr p = true := by
  unfold canonicalPart at h
  rcases Bool.or_eq_true_iff.1 h with h | h
  · exact Or.inl (of_decide_eq_true h)
  · exact Or.inr h

theorem parsePart_formatPart (p : Chars) (h : canonicalPart p = true) :
    parsePart (formatPart p) = p := by
  rcases canonical_cases p h with h | h
  · exact roundtrip_finite p h
  · rw [formatPart_fkey p h, parsePart_fkey p h]

theorem formatPart_no_spp (p : Chars) (h : canonicalPart p = true) :
    hasSub (cs " + ") (formatPart p) = false := by
  rcases canonical_cases p h with h | h
  · exact finite_no_spp p h
  · rw [formatPart_fkey p h]
    exact hasSub_spp_self p (fkey_chars_clean p h)

theorem formatPart_no_collision (p : Chars) (h : canonicalPart p = true)
    (hne : p ≠ cs "NumPadAdd") :
    hasSub (cs " + ") (formatPart p ++ [' ', '+']) = false := by
  rcases canonical_cases p h with h | h
  · rcases finite_no_collision p h with h2 | h2
    · exact absurd h2 hne
    · exact h2
  · rw [formatPart_fkey p h]
    exact hasSub_spp_pad p (fkey_chars_clean p h)

theorem hotkey_roundtrip (h : Chars)
    (hcanon : ∀ p ∈ splitSub (cs "+") h, canonicalPart p = true)
    (hadd : ∀ p ∈ (splitSub (cs "+") h).dropLast, p ≠ cs "NumPadAdd") :
    parseDisplayHotkey (formatHotkeyForDisplay h) = h := by
  have hne : splitSub (cs "+") h ≠ [] := splitSubFuel_ne_nil _ _ _ _
  have hjoin : joinSep (cs "+") (splitSub (cs "+") h) = h := joinSep_splitSub _ _
  unfold parseDisplayHotkey formatHotkeyForDisplay
  rw [splitSub_joinSep (cs " + ") (by decide) ((splitSub (cs "+") h).map formatPart)
    (by simpa using hne)
    ?_ ?_]
  · rw [List.map_map]
    have hmap : (splitSub (cs "+") h).map (parsePart ∘ formatPart)
        = (splitSub (cs "+") h).map id :=
      List.map_congr_left (fun p hp => parsePart_formatPart p (hcanon p hp))
    rw [hmap, List.map_id, hjoin]
  · intro f hf
    rw [← List.map_dropLast] at hf
    obtain ⟨p, hp, rfl⟩ := List.mem_map.1 hf
    have hpmem : p ∈ splitSub (cs "+") h := (List.dropLast_sublist _).subset hp
    rw [show (cs " + ").dropLast = [' ', '+'] from rfl]
    exact formatPart_no_collision p (hcanon p hpmem) (hadd p hp)
  · intro f hf
    rw [List.getLast?_map] at hf
    obtain ⟨p, hp, rfl⟩ := Option.map_eq_some'.1 hf
    obtain ⟨hne2, hpe⟩ := List.mem_getLast?_eq_getLast hp
    have hpmem : p ∈ splitSub (cs "+") h := by
      rw [hpe]
      exact List.getLast_mem hne2
    exact formatPart_no_spp p (hcanon p hpmem)

/-! C6: event channel names. -/

/-- C6 counterexample: no Dashboard listener is subscribed under the
channel name `decode-error`; the decode-error handler listens on
`audio-decode-error` instead. -/
theorem claim_C6_counterexample :
    "decode-error" ∉ dashboardListeners.map Prod.fst ∧
    decodeErrorChannel ≠ "decode-error" := by
  decide

/-- C6 (amended): decode errors are surfaced to the handler subscribed on
the channel named `audio-decode-error`, completions on
`playback-complete`, and progress on `playback-progress`; the consumer's
listeners are registered under exactly these names. -/
theorem claim_C6_event_channels :
    (decodeErrorChannel, HandlerTag.decodeError) ∈ dashboardListeners ∧
    decodeErrorChannel = "audio-decode-error" ∧
    (playbackCompleteChannel, HandlerTag.playbackComplete) ∈ dashboardListeners ∧
    playbackCompleteChannel = "playback-complete" ∧
    (playbackProgressChannel, HandlerTag.playbackProgress) ∈ dashboardListeners ∧
    playbackProgressChannel = "playback-progress" := by
  decide

/-! C7: the Settings boost handlers keep the multiplier in [1.0, 3.0]. -/

theorem applyBoostAction_bounds (s : AppSettings) (a : BoostAction)
    (h : ValidBoostAction a) :
    1 ≤ (applyBoostAction s a).volume_multiplier ∧
    (applyBoostAction s a).volume_multiplier ≤ 3 := by
  cases a with
  | toggle c =>
      cases c <;> simp [applyBoostAction, boostToggleHandler] <;> norm_num
  | slider v =>
      obtain ⟨h1, h2⟩ := h
      refine ⟨?_, h2⟩
      calc (1 : ℚ) ≤ 11/10 := by norm_num
        _ ≤ v := h1

theorem foldl_ends_with_action (s : AppSettings) (acts : List BoostAction)
    (h : acts ≠ []) :
    ∃ s2 a, a ∈ acts ∧ acts.foldl applyBoostAction s = applyBoostAction s2 a := by
  induction acts generalizing s with
  | nil => exact absurd rfl h
  | cons a rest ih =>
      cases rest with
      | nil => exact ⟨s, a, List.mem_cons_self _ _, rfl⟩
      | cons b rest2 =>
          obtain ⟨s2, c, hc, he⟩ := ih (applyBoostAction s a) (List.cons_ne_nil _ _)
          exact ⟨s2, c, List.mem_cons_of_mem _ hc, he⟩

/-- C7: any settings state produced through the Global Volume Boost
controls has `volume_multiplier` in [1.0, 3.0]: the toggle writes exactly
1.0 or 2.0, and the slider writes only range-input values in [1.1, 3.0]. -/
theorem claim_C7_boost_multiplier_bounds (s : AppSettings)
    (acts : List BoostAction) (hne : acts ≠ [])
    (hval : ∀ a ∈ acts, ValidBoostAction a) :
    (∀ c, (boostToggleHandler s c).volume_multiplier = 2 ∨
          (boostToggleHandler s c).volume_multiplier = 1) ∧
    1 ≤ (acts.foldl applyBoostAction s).volume_multiplier ∧
    (acts.foldl applyBoostAction s).volume_multiplier ≤ 3 := by
  refine ⟨?_, ?_⟩
  · intro c
    cases c <;> simp [boostToggleHandler]
  · obtain ⟨s2, a, ha, he⟩ := foldl_ends_with_action s acts hne
    rw [he]
    exact applyBoostAction_bounds s2 a (hval a ha)

/-- Sample settings record used by witnesses. -/
theorem claim_C7_boost_multiplier_bounds_witness :
    (([BoostAction.toggle true, BoostAction.slider (3/2)] : List BoostAction) ≠ [] ∧
     ∀ a ∈ ([BoostAction.toggle true, BoostAction.slider (3/2)] : List BoostAction),
       ValidBoostAction a) ∧
    ((∀ c, (boostToggleHandler
        ⟨none, none, 1/2, 1, none, false, false, false⟩ c).volume_multiplier = 2 ∨
          (boostToggleHandler
        ⟨none, none, 1/2, 1, none, false, false, false⟩ c).volume_multiplier = 1) ∧
     1 ≤ (([BoostAction.toggle true, BoostAction.slider (3/2)]).foldl applyBoostAction
        ⟨none, none, 1/2, 1, none, false, false, false⟩).volume_multiplier ∧
     (([BoostAction.toggle true, BoostAction.slider (3/2)]).foldl applyBoostAction
        ⟨none, none, 1/2, 1, none, false, false, false⟩).volume_multiplier ≤ 3) :=
  have hval : ∀ a ∈ ([BoostAction.toggle true,
      BoostAction.slider (3/2)] : List BoostAction), ValidBoostAction a := by
    intro a ha
    rcases List.mem_cons.1 ha with rfl | ha
    · trivial
    · rcases List.mem_cons.1 ha with rfl | ha
      · exact ⟨by norm_num, by norm_num⟩
      · simp at ha
  ⟨⟨List.cons_ne_nil _ _, hval⟩,
   claim_C7_boost_multiplier_bounds ⟨none, none, 1/2, 1, none, false, false, false⟩
     [BoostAction.toggle true, BoostAction.slider (3/2)]
     (List.cons_ne_nil _ _) hval⟩

/-! C8: shape of the gain curve. -/

/-- C8: the gain is non-decreasing in the slider on [0, 1], `gain 0 = 0`,
and `gain 1` is `0.2 × global_multiplier × loudness_gain ×
per_sound_volume` clamped to the clipping-safe ceiling. -/
theorem claim_C8_gain_curve (s1 s2 m lg v c : ℚ)
    (hs1 : 0 ≤ s1) (hs12 : s1 ≤ s2) (hs2 : s2 ≤ 1)
    (hm : 0 ≤ m) (hlg : 0 ≤ lg) (hv : 0 ≤ v) (hc : 0 ≤ c) :
    computeGain s1 v m lg c ≤ computeGain s2 v m lg c ∧
    computeGain 0 v m lg c = 0 ∧
    computeGain 1 v m lg c = min ((1/5) * m * lg * v) c := by
  refine ⟨?_, ?_, ?_⟩
  · unfold computeGain
    apply min_le_min _ (le_refl c)
    have h4 : s1 ^ 4 ≤ s2 ^ 4 := pow_le_pow_left₀ hs1 hs12 4
    have h15 : (0 : ℚ) ≤ 1/5 := by norm_num
    apply mul_le_mul_of_nonneg_right _ hv
    apply mul_le_mul_of_nonneg_right _ hlg
    apply mul_le_mul_of_nonneg_right _ hm
    exact mul_le_mul_of_nonneg_right h4 h15
  · unfold computeGain
    rw [zero_pow (by norm_num : (4 : ℕ) ≠ 0)]
    ring_nf
    exact min_eq_left hc
  · unfold computeGain
    rw [one_pow, one_mul]

/-- Witness for C8 at concrete slider, multiplier, loudness gain, volume
and ceiling values. -/
theorem claim_C8_gain_curve_witness :
    ((0 : ℚ) ≤ 1/4 ∧ (1/4 : ℚ) ≤ 1/2 ∧ (1/2 : ℚ) ≤ 1 ∧ (0 : ℚ) ≤ 2 ∧
     (0 : ℚ) ≤ 3/2 ∧ (0 : ℚ) ≤ 7/10 ∧ (0 : ℚ) ≤ 4) ∧
    (computeGain (1/4) (7/10) 2 (3/2) 4 ≤ computeGain (1/2) (7/10) 2 (3/2) 4 ∧
     computeGain 0 (7/10) 2 (3/2) 4 = 0 ∧
     computeGain 1 (7/10) 2 (3/2) 4 = min ((1/5) * 2 * (3/2) * (7/10)) 4) :=
  ⟨by norm_num,
   claim_C8_gain_curve (1/4) (1/2) 2 (3/2) (7/10) 4 (by norm_num) (by norm_num)
     (by norm_num) (by norm_num) (by norm_num) (by norm_num) (by norm_num)⟩

/-! C9: the waveform queue serialises backend calls. -/

theorem wbRun_append (log l : List BLabel) :
    wbRun (log ++ l) = l.foldl wbStep (wbRun log) := by
  unfold wbRun
  exact List.foldl_append _ _ _ _

theorem runQ_inv (backend : GetWaveformPayload → Except String WaveformData) :
    ∀ (evs : List QEvent) (σ : QState) (log : List BLabel) (σf : QState)
      (logf : List BLabel),
      runQ backend σ log evs = some (σf, logf) →
      wbRun log = some (modeDepth σ.mode) →
      (∀ pr ∈ σ.settled, pr.2 = backend (mkWaveformPayload pr.1)) →
      wbRun logf = some (modeDepth σf.mode) ∧
      σf.settled.map Prod.fst ++ modeItems σf.mode ++ σf.queue
        = σ.settled.map Prod.fst ++ modeItems σ.mode ++ σ.queue ++ addsOf evs ∧
      ∀ pr ∈ σf.settled, pr.2 = backend (mkWaveformPayload pr.1) := by
  intro evs
  induction evs with
  | nil =>
      intro σ log σf logf hrun hwb hset
      rw [runQ] at hrun
      obtain ⟨rfl, rfl⟩ := Prod.mk.inj (Option.some.inj hrun)
      exact ⟨hwb, by simp [addsOf], hset⟩
  | cons e es ih =>
      intro σ log σf logf hrun hwb hset
      rw [runQ] at hrun
      cases hq : qstep backend σ e with
      | none => rw [hq] at hrun; exact absurd hrun (by simp)
      | some pair =>
          obtain ⟨σ2, l⟩ := pair
          rw [hq] at hrun
          have hstep : wbRun (log ++ l) = some (modeDepth σ2.mode) ∧
              σ2.settled.map Prod.fst ++ modeItems σ2.mode ++ σ2.queue
                = σ.settled.map Prod.fst ++ modeItems σ.mode ++ σ.queue ++ addsOf [e] ∧
              (∀ pr ∈ σ2.settled, pr.2 = backend (mkWaveformPayload pr.1)) := by
            cases e with
            | add i =>
                cases hm : σ.mode with
                | idle =>
                    cases hqq : σ.queue ++ [i] with
                    | nil => simp [qstep, hm, hqq] at hq
                    | cons j rest =>
                        rw [qstep] at hq
                        simp only [hm, hqq] at hq
                        obtain ⟨rfl, rfl⟩ := Prod.mk.inj (Option.some.inj hq)
                        refine ⟨?_, ?_, hset⟩
                        · rw [wbRun_append, hwb]
                          simp [wbStep, modeDepth, hm]
                        · simp only [modeItems, addsOf, List.append_assoc,
                            List.nil_append, List.singleton_append]
                          rw [hqq]
                | calling k =>
                    rw [qstep] at hq
                    simp only [hm] at hq
                    obtain ⟨rfl, rfl⟩ := Prod.mk.inj (Option.some.inj hq)
                    refine ⟨by simpa [hm] using hwb, ?_, hset⟩
                    simp [modeItems, hm, addsOf, List.append_assoc]
                | delaying =>
                    rw [qstep] at hq
                    simp only [hm] at hq
                    obtain ⟨rfl, rfl⟩ := Prod.mk.inj (Option.some.inj hq)
                    refine ⟨by simpa [hm] using hwb, ?_, hset⟩
                    simp [modeItems, hm, addsOf, List.append_assoc]
            | ret =>
                cases hm : σ.mode with
                | idle => simp [qstep, hm] at hq
                | delaying => simp [qstep, hm] at hq
                | calling j =>
                    rw [qstep] at hq
                    simp only [hm] at hq
                    cases hqe : σ.queue.isEmpty with
                    | true =>
                        rw [if_pos hqe] at hq
                        obtain ⟨rfl, rfl⟩ := Prod.mk.inj (Option.some.inj hq)
                        refine ⟨?_, ?_, ?_⟩
                        · rw [wbRun_append, hwb]
                          simp [wbStep, modeDepth, hm]
                        · simp [modeItems, hm, addsOf, List.append_assoc]
                        · intro pr hpr
                          rcases List.mem_append.1 hpr with hpr | hpr
                          · exact hset pr hpr
                          · rw [List.mem_singleton] at hpr
                            subst hpr
                            rfl
                    | false =>
                        rw [if_neg (by simp [hqe])] at hq
                        obtain ⟨rfl, rfl⟩ := Prod.mk.inj (Option.some.inj hq)
                        refine ⟨?_, ?_, ?_⟩
                        · rw [wbRun_append, hwb]
                          simp [wbStep, modeDepth, hm]
                        · simp [modeItems, hm, addsOf, List.append_assoc]
                        · intro pr hpr
                          rcases List.mem_append.1 hpr with hpr | hpr
                          · exact hset pr hpr
                          · rw [List.mem_singleton] at hpr
                            subst hpr
                            rfl
            | tick =>
                cases hm : σ.mode with
                | idle => simp [qstep, hm] at hq
                | calling j => simp [qstep, hm] at hq
                | delaying =>
                    rw [qstep] at hq
                    simp only [hm] at hq
                    cases hqq : σ.queue with
                    | nil =>
                        rw [hqq] at hq
                        obtain ⟨rfl, rfl⟩ := Prod.mk.inj (Option.some.inj hq)
                        refine ⟨by simpa [modeDepth, hm] using hwb, ?_, hset⟩
                        simp [modeItems, modeDepth, hm, addsOf, hqq]
                    | cons j rest =>
                        rw [hqq] at hq
                        obtain ⟨rfl, rfl⟩ := Prod.mk.inj (Option.some.inj hq)
                        refine ⟨?_, ?_, hset⟩
                        · rw [wbRun_append, hwb]
                          simp [wbStep, modeDepth, hm]
                        · simp [modeItems, modeDepth, hm, addsOf, hqq]
          obtain ⟨hw2, hacc2, hs2⟩ := hstep
          obtain ⟨hwf, haccf, hsf⟩ := ih σ2 (log ++ l) σf logf hrun hw2 hs2
          refine ⟨hwf, ?_, hsf⟩
          rw [haccf, hacc2]
          cases e <;> simp [addsOf, List.append_assoc]

/-- C9: along any run of the waveform queue from its initial state, the
call log is accepted by the depth-one automaton (`wbRun` is `some`), so at
most one `get_waveform` call is ever outstanding and calls never overlap;
the items added are exactly the settled ones followed by the in-flight one
and the still-queued ones in arrival order (FIFO dispatch, each request
settled at most once and never lost); and every settled request carries
precisely its own backend verdict (resolved data or rejection). -/
theorem claim_C9_queue_serialises
    (backend : GetWaveformPayload → Except String WaveformData)
    (evs : List QEvent) (σ : QState) (log : List BLabel)
    (hrun : runQ backend qInit [] evs = some (σ, log)) :
    wbRun log = some (modeDepth σ.mode) ∧
    addsOf evs = σ.settled.map Prod.fst ++ modeItems σ.mode ++ σ.queue ∧
    ∀ pr ∈ σ.settled, pr.2 = backend (mkWaveformPayload pr.1) := by
  obtain ⟨h1, h2, h3⟩ := runQ_inv backend evs qInit [] σ log hrun rfl
    (by intro pr hpr; simp [qInit] at hpr)
  refine ⟨h1, ?_, h3⟩
  rw [h2]
  simp [qInit, modeItems, addsOf]

/-- Witness for C9: two requests added, the first settling while the
second waits, then the delay expiring and dispatching the second. -/
theorem claim_C9_queue_serialises_witness :
    runQ (fun _ => Except.error "decode") qInit []
      [QEvent.add ⟨"C:/a.mp3", 100⟩, QEvent.add ⟨"C:/b.mp3", 100⟩,
       QEvent.ret, QEvent.tick]
      = some ({ queue := [], mode := QMode.calling ⟨"C:/b.mp3", 100⟩,
                settled := [(⟨"C:/a.mp3", 100⟩, Except.error "decode")] },
              [BLabel.callStart ⟨"C:/a.mp3", 100⟩, BLabel.callEnd,
               BLabel.callStart ⟨"C:/b.mp3", 100⟩]) ∧
    (wbRun [BLabel.callStart ⟨"C:/a.mp3", 100⟩, BLabel.callEnd,
            BLabel.callStart ⟨"C:/b.mp3", 100⟩]
        = some (modeDepth (QMode.calling ⟨"C:/b.mp3", 100⟩)) ∧
     addsOf [QEvent.add ⟨"C:/a.mp3", 100⟩, QEvent.add ⟨"C:/b.mp3", 100⟩,
             QEvent.ret, QEvent.tick]
        = ([(⟨"C:/a.mp3", 100⟩, Except.error "decode")] : List
            (QItem × Except String WaveformData)).map Prod.fst
            ++ modeItems (QMode.calling ⟨"C:/b.mp3", 100⟩) ++ [] ∧
     ∀ pr ∈ ([(⟨"C:/a.mp3", 100⟩, Except.error "decode")] : List
            (QItem × Except String WaveformData)),
       pr.2 = (fun _ => Except.error "decode") (mkWaveformPayload pr.1)) :=
  ⟨rfl,
   claim_C9_queue_serialises (fun _ => Except.error "decode")
     [QEvent.add ⟨"C:/a.mp3", 100⟩, QEvent.add ⟨"C:/b.mp3", 100⟩,
      QEvent.ret, QEvent.tick]
     { queue := [], mode := QMode.calling ⟨"C:/b.mp3", 100⟩,
       settled := [(⟨"C:/a.mp3", 100⟩, Except.error "decode")] }
     [BLabel.callStart ⟨"C:/a.mp3", 100⟩, BLabel.callEnd,
      BLabel.callStart ⟨"C:/b.mp3", 100⟩]
     rfl⟩

/-! C5: signatures of the exposed commands. -/

/-- C5 counterexample: when the sample sound is played, the play command
is invoked, but the sound id is not among the string arguments of its
payload — `play_dual_output` receives only the file path, the two device
ids, the volume and the trim window. -/
theorem claim_C5_counterexample :
    Cmd.play (mkPlayPayload sampleSound "dev-1" "dev-2" (1/2)) ∈
      playSoundTrace sampleState sampleSound "dev-1" "dev-2" (1/2) false
        (Except.ok "pb-2") ∧
    sampleSound.id ∉ payloadStrings (mkPlayPayload sampleSound "dev-1" "dev-2" (1/2)) := by
  constructor
  · show Cmd.play (mkPlayPayload sampleSound "dev-1" "dev-2" (1/2)) ∈
      [Cmd.play (mkPlayPayload sampleSound "dev-1" "dev-2" (1/2))]
    exact List.mem_singleton.2 rfl
  · decide

/-- C5 (amended): the exposed play command is invoked with the file path,
the two output device ids, the effective volume (the sound's own volume
falling back to the dashboard default) and the optional trim start/end —
the sound id is not among the arguments — and it returns the new playback
id, which `playSound` records for the sound; the exposed `get_waveform`
command takes a file path and a number of peaks and returns a record
containing `peaks` and `duration_ms` (every settled queue item carries its
backend's verdict for exactly that payload). -/
theorem claim_C5_exposed_command_signatures (σ : DashboardState) (sound : Sound)
    (d1 d2 : String) (v : ℚ) (pid : String)
    (backend : GetWaveformPayload → Except String WaveformData)
    (evs : List QEvent) (σq : QState) (log : List BLabel)
    (h1 : d1 ≠ "") (h2 : d2 ≠ "")
    (hNo : mapGet σ.playingSounds sound.id = none)
    (hrun : runQ backend qInit [] evs = some (σq, log)) :
    playSoundTrace σ sound d1 d2 v false (Except.ok pid)
      = [Cmd.play { filePath := sound.file_path, deviceId1 := d1, deviceId2 := d2,
                    volume := sound.volume.getD v,
                    trimStartMs := sound.trim_start_ms,
                    trimEndMs := sound.trim_end_ms }] ∧
    mapGet (playSoundState σ sound d1 d2 v false (Except.ok pid)).playingSounds
      sound.id = some pid ∧
    (∀ pr ∈ σq.settled,
      pr.2 = backend { filePath := pr.1.filePath, numPeaks := pr.1.numPeaks }) := by
  have hdev : ¬(d1 = "" ∨ d2 = "") := by tauto
  refine ⟨?_, ?_, ?_⟩
  · unfold playSoundTrace playSoundFull
    rw [if_neg hdev, hNo]
    rfl
  · unfold playSoundState playSoundFull
    rw [if_neg hdev, hNo]
    show mapGet (mapSet σ.playingSounds sound.id pid) sound.id = some pid
    exact mapGet_mapSet_self _ _ _
  · obtain ⟨h1q, h2q, h3q⟩ := runQ_inv backend evs qInit [] σq log hrun rfl
      (by intro pr hpr; simp [qInit] at hpr)
    exact h3q

/-- Witness for the amended C5 at the sample state, sound and a
single-request queue run. -/
theorem claim_C5_exposed_command_signatures_witness :
    (("dev-1" : String) ≠ "" ∧ ("dev-2" : String) ≠ "" ∧
     mapGet sampleState.playingSounds sampleSound.id = none ∧
     runQ (fun _ => Except.error "decode") qInit [] [QEvent.add ⟨"C:/a.mp3", 100⟩]
       = some ({ queue := [], mode := QMode.calling ⟨"C:/a.mp3", 100⟩, settled := [] },
               [BLabel.callStart ⟨"C:/a.mp3", 100⟩])) ∧
    (playSoundTrace sampleState sampleSound "dev-1" "dev-2" (1/2) false
        (Except.ok "pb-9")
      = [Cmd.play { filePath := sampleSound.file_path, deviceId1 := "dev-1",
                    deviceId2 := "dev-2",
                    volume := sampleSound.volume.getD (1/2),
                    trimStartMs := sampleSound.trim_start_ms,
                    trimEndMs := sampleSound.trim_end_ms }] ∧
     mapGet (playSoundState sampleState sampleSound "dev-1" "dev-2" (1/2) false
        (Except.ok "pb-9")).playingSounds sampleSound.id = some "pb-9" ∧
     (∀ pr ∈ ({ queue := [], mode := QMode.calling ⟨"C:/a.mp3", 100⟩,
                settled := [] } : QState).settled,
       pr.2 = (fun _ => Except.error "decode")
         ({ filePath := pr.1.filePath, numPeaks := pr.1.numPeaks } :
           GetWaveformPayload))) :=
  ⟨⟨by decide, by decide, by decide, rfl⟩,
   claim_C5_exposed_command_signatures sampleState sampleSound "dev-1" "dev-2"
     (1/2) "pb-9" (fun _ => Except.error "decode")
     [QEvent.add ⟨"C:/a.mp3", 100⟩]
     { queue := [], mode := QMode.calling ⟨"C:/a.mp3", 100⟩, settled := [] }
     [BLabel.callStart ⟨"C:/a.mp3", 100⟩]
     (by decide) (by decide) (by decide) rfl⟩

/-! C10: hotkey display round-trip. -/

/-- C10 counterexample: the hotkey `NumPadAdd+A` consists solely of
canonical technical key names, yet
`parseDisplayHotkey (formatHotkeyForDisplay h) ≠ h`: it formats to
`Numpad + + A`, in which the display separator ` + ` collides with the
trailing `+` of the `Numpad +` label, so the parse splits wrongly and
yields `Numpad++ A`. -/
theorem claim_C10_counterexample :
    (∀ p ∈ splitSub (cs "+") (cs "NumPadAdd+A"), canonicalPart p = true) ∧
    parseDisplayHotkey (formatHotkeyForDisplay (cs "NumPadAdd+A"))
      ≠ cs "NumPadAdd+A" := by
  decide

/-- C10 (amended): for every hotkey string whose `+`-separated parts are
canonical technical key names and in which `NumPadAdd` occurs only as the
final part, `parseDisplayHotkey (formatHotkeyForDisplay h) = h`. -/
theorem claim_C10_roundtrip (h : Chars)
    (hcanon : ∀ p ∈ splitSub (cs "+") h, canonicalPart p = true)
    (hadd : ∀ p ∈ (splitSub (cs "+") h).dropLast, p ≠ cs "NumPadAdd") :
    parseDisplayHotkey (formatHotkeyForDisplay h) = h :=
  hotkey_roundtrip h hcanon hadd

/-- Witness for the amended C10 at the hotkey `Ctrl+NumPadAdd`. -/
theorem claim_C10_roundtrip_witness :
    (∀ p ∈ splitSub (cs "+") (cs "Ctrl+NumPadAdd"), canonicalPart p = true) ∧
    (∀ p ∈ (splitSub (cs "+") (cs "Ctrl+NumPadAdd")).dropLast,
      p ≠ cs "NumPadAdd") ∧
    parseDisplayHotkey (formatHotkeyForDisplay (cs "Ctrl+NumPadAdd"))
      = cs "Ctrl+NumPadAdd" :=
  ⟨by decide, by decide,
   claim_C10_roundtrip (cs "Ctrl+NumPadAdd") (by decide) (by decide)⟩

end SonicDeck
